import Mathlib

/-!
# Emerald Engine: `src/Model.cpp`

A shallow embedding of the model subsystem (`Mesh`, `Model`, the texture cache and
the two model registries) together with theorems about it.

Conventions of the embedding.

* Scalars (`GLfloat`, `float`) are elements of an arbitrary linearly ordered field `F`
  (exact arithmetic).  Every definition is polymorphic in `F` and computable; it can be
  run at `F := ℚ` and reasoned about at `F := ℝ`.
* External collaborators (Assimp's importer, `IMG_Load`, `glm::rotate`, the square root
  used by `glm::length`) are fields of `Extern`.
* Undefined behaviour (an out-of-range `operator[]`, a null dereference, an overflowing
  `int` increment) is an explicit `Fault`; a function that can hit one returns
  `Except Fault _`.
* A `Texture*` is the position of the texture object in `Model::loaded_textures`: texture
  objects are created only by `Model::load_texture`, which appends each new object to
  that vector, and nothing is ever removed from it.
* `Light*` and `Model*` (`this`) are addresses chosen by the caller, modelled as numbers.
  Calls made on a light are recorded in a log, in call order.
* OpenGL calls do not influence any value modelled here and are left out.
* File names are strings without an embedded NUL, so `strcmp(a, b) == 0` is `a = b`.
-/

namespace Emerald

/-- The kinds of undefined behaviour `Model.cpp` can reach. -/
inductive Fault where
  | out_of_range
  | null_deref
  | signed_overflow
deriving DecidableEq, Repr

/-- The type `glm::vec3` (also used for `aiVector3D`). -/
structure Vec3 (F : Type) where
  x : F
  y : F
  z : F
deriving DecidableEq, Repr

/-- The type `glm::mat4`, indexed (row, column). -/
abbrev Mat4 (F : Type) := Matrix (Fin 4) (Fin 4) F

namespace Vec3

variable {F : Type}

/-- The vector `glm::vec3 + glm::vec3`. -/
def add [Add F] (a b : Vec3 F) : Vec3 F := ⟨a.x + b.x, a.y + b.y, a.z + b.z⟩

/-- The vector `glm::vec3 - glm::vec3`. -/
def sub [Sub F] (a b : Vec3 F) : Vec3 F := ⟨a.x - b.x, a.y - b.y, a.z - b.z⟩

/-- The vector `float * glm::vec3`. -/
def smul [Mul F] (s : F) (a : Vec3 F) : Vec3 F := ⟨s * a.x, s * a.y, s * a.z⟩

/-- The vector `-glm::vec3`. -/
def neg [Neg F] (a : Vec3 F) : Vec3 F := ⟨-a.x, -a.y, -a.z⟩

end Vec3

namespace glm

variable {F : Type} [Field F]

/-- The translation matrix `T(v)`. -/
def translation (v : Vec3 F) : Mat4 F :=
  !![1, 0, 0, v.x; 0, 1, 0, v.y; 0, 0, 1, v.z; 0, 0, 0, 1]

/-- The scaling matrix `S(v)`. -/
def scaling (v : Vec3 F) : Mat4 F :=
  !![v.x, 0, 0, 0; 0, v.y, 0, 0; 0, 0, v.z, 0; 0, 0, 0, 1]

/-- The function `glm::translate(m, v)`, which is `m * T(v)`. -/
def translate (m : Mat4 F) (v : Vec3 F) : Mat4 F := m * translation v

/-- The function `glm::scale(m, v)`, which is `m * S(v)`. -/
def scale (m : Mat4 F) (v : Vec3 F) : Mat4 F := m * scaling v

/-- The expression `glm::vec3(m * glm::vec4(r, 1.f))`. -/
def mul_point (m : Mat4 F) (r : Vec3 F) : Vec3 F :=
  let v := m.mulVec ![r.x, r.y, r.z, 1]
  ⟨v 0, v 1, v 2⟩

/-- The function `glm::length(v)`, which is `sqrt(dot(v, v))`. -/
def length (sqrt : F → F) (v : Vec3 F) : F := sqrt (v.x * v.x + v.y * v.y + v.z * v.z)

end glm

/-- The enum of texture roles. -/
inductive TextureType where
  | DIFFUSE
  | SPECULAR
deriving DecidableEq, Repr

/-- The struct `Texture`, without its GPU handle: `type` and `path` (an `aiString`). -/
structure Texture where
  type : TextureType
  path : String
deriving DecidableEq, Repr

/-- A `Texture*`: the position of the object in `Model::loaded_textures`. -/
abbrev TexturePtr := Nat

/-- A `Light*`. -/
abbrev LightPtr := Nat

/-- A `Model*`. -/
abbrev ModelPtr := Nat

/-- The class `Mesh`, without its GPU handles. -/
structure Mesh (F : Type) where
  index_count : Nat
  vertex_count : Nat
  vertices : List F
  normals : List F
  tex_coords : List F
  indices : List Nat
  shininess : F
  textures : List TexturePtr
deriving DecidableEq, Repr

/-- The struct `aiFace`: `mNumIndices` is the length of `mIndices`. -/
structure aiFace where
  mIndices : List Nat
deriving DecidableEq, Repr

/-- The struct `aiMesh`: `mNumVertices` is the length of `mVertices`, `mNumFaces` the length
of `mFaces`; `mNormals` and UV channel 0 are arrays of their own (channel 0 may be null). -/
structure aiMesh (F : Type) where
  mVertices : List (Vec3 F)
  mNormals : List (Vec3 F)
  mTextureCoords0 : Option (List (Vec3 F))
  mFaces : List aiFace
  mMaterialIndex : Nat
deriving DecidableEq, Repr

/-- The struct `aiMaterial`, as far as `load_mesh` reads it: the shininess and the file
names of the diffuse and of the specular texture slots. -/
structure aiMaterial (F : Type) where
  shininess : F
  diffuse : List String
  specular : List String
deriving DecidableEq, Repr

/-- The struct `aiNode`: the mesh indices of the node and its children.  `Model.cpp` reads
no other member of a node; in particular it never reads `mTransformation`. -/
inductive aiNode where
  | mk (mMeshes : List Nat) (mChildren : List aiNode)

/-- The struct `aiScene`. -/
structure aiScene (F : Type) where
  mFlags : Nat
  mRootNode : Option aiNode
  mMeshes : List (aiMesh F)
  mMaterials : List (aiMaterial F)

/-- The constant `AI_SCENE_FLAGS_INCOMPLETE`. -/
def AI_SCENE_FLAGS_INCOMPLETE : Nat := 1

/-- The struct `SDL_Surface`, as far as `load_texture` reads it. -/
structure SDL_Surface where
  w : Nat
  h : Nat
deriving DecidableEq, Repr

/-- The external collaborators of `Model.cpp`. -/
structure Extern (F : Type) where
  /-- The square root behind `glm::length`. -/
  sqrt : F → F
  /-- The function `glm::rotate(m, angle, axis)`. -/
  rotate : Mat4 F → F → Vec3 F → Mat4 F
  /-- The call `Assimp::Importer::ReadFile`; `none` is a null scene. -/
  ReadFile : String → Option (aiScene F)
  /-- The call `IMG_Load`; `none` is a null surface. -/
  IMG_Load : String → Option SDL_Surface

/-- The struct `light_container`. -/
structure light_container (F : Type) where
  light : LightPtr
  relative_pos : Vec3 F
deriving DecidableEq, Repr

/-- A call made on a `Light`. -/
inductive LightCall (F : Type) where
  | move_to (light : LightPtr) (pos : Vec3 F)
  | upload (light : LightPtr)
  | upload_pos (light : LightPtr)
deriving DecidableEq, Repr

/-- The class `Model`. -/
structure Model (F : Type) where
  rot_matrix : Mat4 F
  m2w_matrix : Mat4 F
  world_coord : Vec3 F
  scale : F
  directory : String
  meshes : List (Mesh F)
  attached_lightsources : List (light_container F)
  bounding_sphere_radius : F
  bounding_sphere_center : Vec3 F

/-- The static members of `Model`. -/
structure Globals where
  loaded_models : List ModelPtr
  loaded_flat_models : List ModelPtr
  loaded_textures : List Texture
deriving DecidableEq, Repr

/-- The constant `std::string::npos` of a 64-bit `size_t`. -/
def npos : Nat := 2 ^ 64 - 1

/-- The call `s.find_last_of(c)`: the last position of `c` in `s`, or `npos`. -/
def find_last_of (s : String) (c : Char) : Nat :=
  let j := s.data.reverse.findIdx (fun d => decide (d = c))
  if j < s.data.length then s.data.length - 1 - j else npos

/-- The call `s.substr(0, n)`: the first `n` characters of `s` (all of `s` if it is shorter). -/
def substr0 (s : String) (n : Nat) : String := ⟨s.data.take n⟩

namespace Model

variable {F : Type} [LinearOrderedField F]

/-- The function `Model::load_texture` (lines 213-245).  The scan returns the first cached
texture whose `path` equals `filename` (its 32-bit counter covers caches of fewer than
`2 ^ 32` textures).  On a miss the image is loaded; a null surface is
logged and then dereferenced by `surface->w`.  The new `Texture` is value-initialised (its
`path` is the empty `aiString`), appended to `loaded_textures` and returned. -/
def load_texture (ext : Extern F) (filename basepath : String) (loaded_textures : List Texture) :
    Except Fault (TexturePtr × List Texture) :=
  let filepath := basepath ++ "/" ++ filename
  let i := loaded_textures.findIdx (fun t => decide (t.path = filename))
  if i < loaded_textures.length then
    .ok (i, loaded_textures)
  else
    match ext.IMG_Load filepath with
    | none => .error Fault.null_deref
    | some _ => .ok (loaded_textures.length, loaded_textures ++ [⟨TextureType.DIFFUSE, ""⟩])

/-- The call `ai_mesh->HasTextureCoords(0)`: channel 0 is non-null and the mesh has a vertex. -/
def HasTextureCoords0 (ai_mesh : aiMesh F) : Bool :=
  ai_mesh.mTextureCoords0.isSome && decide (0 < ai_mesh.mVertices.length)

/-- The body of the vertex loop of `Model::load_mesh` (lines 158-172) at index `i`. -/
def load_mesh_vertex (ai_mesh : aiMesh F) (m : Mesh F) (i : Nat) : Except Fault (Mesh F) :=
  match ai_mesh.mVertices[i]?, ai_mesh.mNormals[i]? with
  | some p, some n =>
    let m1 : Mesh F :=
      { m with vertices := m.vertices ++ [p.x, p.y, p.z], normals := m.normals ++ [n.x, n.y, n.z] }
    if HasTextureCoords0 ai_mesh then
      match ai_mesh.mTextureCoords0 with
      | none => .error Fault.null_deref
      | some channel =>
        match channel[i]? with
        | some t => .ok { m1 with tex_coords := m1.tex_coords ++ [t.x, t.y] }
        | none => .error Fault.out_of_range
    else
      .ok { m1 with tex_coords := m1.tex_coords ++ [0, 0] }
  | _, _ => .error Fault.out_of_range

/-- The body of the two texture loops of `Model::load_mesh` (lines 189-195 and 199-205):
resolve the file through `load_texture`, write `type` and `path` on the returned object,
append the pointer to the mesh's textures.  The state is (textures of the mesh, cache). -/
def load_mesh_texture (ext : Extern F) (directory : String) (type : TextureType)
    (st : List TexturePtr × List Texture) (filepath : String) :
    Except Fault (List TexturePtr × List Texture) :=
  match load_texture ext filepath directory st.2 with
  | .error e => .error e
  | .ok (texture, cache) => .ok (st.1 ++ [texture], cache.set texture ⟨type, filepath⟩)

/-- The object made by `new Mesh()`. -/
def new_Mesh : Mesh F :=
  { index_count := 0, vertex_count := 0, vertices := [], normals := [], tex_coords := [],
    indices := [], shininess := 0, textures := [] }

/-- The geometry part of `Model::load_mesh` (lines 152-180): counts, vertex loop, face loop.
The product `3 * mNumFaces` is an `unsigned int` product. -/
def load_mesh_geometry (ai_mesh : aiMesh F) : Except Fault (Mesh F) :=
  let m0 : Mesh F :=
    { (new_Mesh : Mesh F) with
      index_count := (3 * ai_mesh.mFaces.length) % 2 ^ 32,
      vertex_count := ai_mesh.mVertices.length }
  match (List.range ai_mesh.mVertices.length).foldlM (load_mesh_vertex ai_mesh) m0 with
  | .error e => .error e
  | .ok m1 =>
    .ok { m1 with indices := ai_mesh.mFaces.foldl (fun acc face => acc ++ face.mIndices) m1.indices }

/-- The function `Model::load_mesh` (lines 151-210); `directory` is `this->directory`. -/
def load_mesh (ext : Extern F) (directory : String) (ai_mesh : aiMesh F) (scene : aiScene F)
    (loaded_textures : List Texture) : Except Fault (Mesh F × List Texture) :=
  match load_mesh_geometry ai_mesh with
  | .error e => .error e
  | .ok m =>
    match scene.mMaterials[ai_mesh.mMaterialIndex]? with
    | none => .error Fault.out_of_range
    | some material =>
      let m1 : Mesh F := { m with shininess := material.shininess / 4 }
      match material.diffuse.foldlM (load_mesh_texture ext directory TextureType.DIFFUSE)
          (m1.textures, loaded_textures) with
      | .error e => .error e
      | .ok st1 =>
        match material.specular.foldlM (load_mesh_texture ext directory TextureType.SPECULAR) st1 with
        | .error e => .error e
        | .ok st2 => .ok ({ m1 with textures := st2.1 }, st2.2)

/-- The body of the mesh loop of `Model::unfold_assimp_node` (lines 142-143).
The state is (`this->meshes`, `loaded_textures`). -/
def unfold_mesh (ext : Extern F) (directory : String) (scene : aiScene F)
    (st : List (Mesh F) × List Texture) (idx : Nat) : Except Fault (List (Mesh F) × List Texture) :=
  match scene.mMeshes[idx]? with
  | none => .error Fault.out_of_range
  | some ai_mesh =>
    match load_mesh ext directory ai_mesh scene st.2 with
    | .error e => .error e
    | .ok (m, cache) => .ok (st.1 ++ [m], cache)

mutual
/-- The function `Model::unfold_assimp_node` (lines 140-149). -/
def unfold_assimp_node (ext : Extern F) (directory : String) (scene : aiScene F) :
    aiNode → List (Mesh F) × List Texture → Except Fault (List (Mesh F) × List Texture)
  | .mk mMeshes mChildren, st =>
    match mMeshes.foldlM (unfold_mesh ext directory scene) st with
    | .error e => .error e
    | .ok st1 => unfold_children ext directory scene mChildren st1
/-- The child loop of `Model::unfold_assimp_node` (lines 146-148). -/
def unfold_children (ext : Extern F) (directory : String) (scene : aiScene F) :
    List aiNode → List (Mesh F) × List Texture → Except Fault (List (Mesh F) × List Texture)
  | [], st => .ok st
  | c :: cs, st =>
    match unfold_assimp_node ext directory scene c st with
    | .error e => .error e
    | .ok st1 => unfold_children ext directory scene cs st1
end

/-- The function `Model::load` (lines 127-137). -/
def load (ext : Extern F) (path : String) (self : Model F) (loaded_textures : List Texture) :
    Except Fault (Model F × List Texture) :=
  match ext.ReadFile path with
  | none => .ok (self, loaded_textures)
  | some scene =>
    if scene.mFlags = AI_SCENE_FLAGS_INCOMPLETE then .ok (self, loaded_textures)
    else
      match scene.mRootNode with
      | none => .ok (self, loaded_textures)
      | some root =>
        let directory := substr0 path (find_last_of path '/')
        match unfold_assimp_node ext directory scene root (self.meshes, loaded_textures) with
        | .error e => .error e
        | .ok st => .ok ({ self with directory := directory, meshes := st.1 }, st.2)

/-- The six running bounds of `Model::generate_bounding_sphere`. -/
structure Bounds (F : Type) where
  x_max : F
  y_max : F
  z_max : F
  x_min : F
  y_min : F
  z_min : F
deriving DecidableEq, Repr

/-- The body of the inner loop of `Model::generate_bounding_sphere` (lines 265-287) for the
three floats `a = vertices[i]`, `b = vertices[i + 1]`, `c = vertices[i + 2]`. -/
def sweep_step (bd : Bounds F) (a b c : F) : Bounds F :=
  let bd1 := if a > bd.x_max then { bd with x_max := a } else bd
  let bd2 := if b > bd1.y_max then { bd1 with y_max := b } else bd1
  let bd3 := if c > bd2.z_max then { bd2 with z_max := c } else bd2
  let bd4 := if a < bd3.x_min then { bd3 with x_min := a } else bd3
  let bd5 := if b < bd4.y_min then { bd4 with y_min := b } else bd4
  if c < bd5.z_min then { bd5 with z_min := c } else bd5

/-- The inner loop `for (int i = ...; i < bound; i++)` of `Model::generate_bounding_sphere`
(lines 264-288): `k` is the number of iterations left (`bound - i`), `i` the loop counter.
Every iteration reads `vertices[i]`, `vertices[i + 1]` and `vertices[i + 2]` and then
increments the `int` counter, which must stay below `2 ^ 31`. -/
def sweep_loop (vertices : List F) : Nat → Nat → Bounds F → Except Fault (Bounds F)
  | 0, _, bd => .ok bd
  | k + 1, i, bd =>
    match vertices[i]?, vertices[i + 1]?, vertices[i + 2]? with
    | some a, some b, some c =>
      if i + 1 < 2 ^ 31 then sweep_loop vertices k (i + 1) (sweep_step bd a b c)
      else .error Fault.signed_overflow
    | _, _, _ => .error Fault.out_of_range

/-- The loop bound `mesh->vertices.size() - 2`, computed in 64-bit `size_t` arithmetic. -/
def sweep_bound (size : Nat) : Nat := (size + 2 ^ 64 - 2) % 2 ^ 64

/-- The body of the outer loop of `Model::generate_bounding_sphere` for one mesh. -/
def sweep_mesh (bd : Bounds F) (mesh : Mesh F) : Except Fault (Bounds F) :=
  sweep_loop mesh.vertices (sweep_bound mesh.vertices.length) 0 bd

/-- The function `Model::generate_bounding_sphere` (lines 258-296). -/
def generate_bounding_sphere (sqrt : F → F) (self : Model F) : Except Fault (Model F) :=
  match self.meshes[0]? with
  | none => .error Fault.out_of_range
  | some mesh0 =>
    match mesh0.vertices[0]? with
    | none => .error Fault.out_of_range
    | some v =>
      match self.meshes.foldlM sweep_mesh (⟨v, v, v, v, v, v⟩ : Bounds F) with
      | .error e => .error e
      | .ok bd =>
        let max_corner := Vec3.smul self.scale ⟨bd.x_max, bd.y_max, bd.z_max⟩
        let min_corner := Vec3.smul self.scale ⟨bd.x_min, bd.y_min, bd.z_min⟩
        let r_vector := Vec3.smul (1 / 2) (Vec3.sub max_corner min_corner)
        .ok { self with
              bounding_sphere_radius := glm.length sqrt r_vector,
              bounding_sphere_center := Vec3.add min_corner r_vector }

/-- The function `Model::get_center_point` (lines 77-80). -/
def get_center_point (self : Model F) : Vec3 F :=
  glm.mul_point self.m2w_matrix self.bounding_sphere_center

/-- The member initialisation of the constructor `Model::Model` (lines 59-63); the members
the constructor does not assign here start empty or zero. -/
def init (rot_matrix : Mat4 F) (world_coord : Vec3 F) (scale : F) : Model F :=
  let scale_matrix := glm.scale (1 : Mat4 F) ⟨scale, scale, scale⟩
  { rot_matrix := rot_matrix,
    m2w_matrix := glm.translate (1 : Mat4 F) world_coord * rot_matrix * scale_matrix,
    world_coord := world_coord,
    scale := scale,
    directory := "",
    meshes := [],
    attached_lightsources := [],
    bounding_sphere_radius := 0,
    bounding_sphere_center := ⟨0, 0, 0⟩ }

/-- The constructor `Model::Model` (lines 57-73); `this` is the address of the object under
construction.  Returns the constructed object and the static members. -/
def construct (ext : Extern F) (g : Globals) (this : ModelPtr) (path : String)
    (rot_matrix : Mat4 F) (world_coord : Vec3 F) (scale : F) (flat : Bool) :
    Except Fault (Model F × Globals) :=
  match load ext path (init rot_matrix world_coord scale) g.loaded_textures with
  | .error e => .error e
  | .ok (self1, cache) =>
    match generate_bounding_sphere ext.sqrt self1 with
    | .error e => .error e
    | .ok self2 =>
      if !flat then
        .ok (self2, { g with loaded_models := g.loaded_models ++ [this], loaded_textures := cache })
      else
        .ok (self2, { g with loaded_flat_models := g.loaded_flat_models ++ [this],
                             loaded_textures := cache })

/-- The light loop shared by `Model::move_to` and `Model::rotate` (lines 102-106, 119-123):
every attached light is moved to `m2w_matrix * relative_pos` and its position uploaded. -/
def update_lights (self : Model F) (log : List (LightCall F)) : List (LightCall F) :=
  self.attached_lightsources.foldl
    (fun acc lc =>
      acc ++ [LightCall.move_to lc.light (glm.mul_point self.m2w_matrix lc.relative_pos),
              LightCall.upload_pos lc.light])
    log

/-- The function `Model::attach_light` (lines 83-91). -/
def attach_light (self : Model F) (light : LightPtr) (relative_pos : Vec3 F)
    (log : List (LightCall F)) : Model F × List (LightCall F) :=
  let new_light : light_container F := ⟨light, relative_pos⟩
  let light_pos := glm.mul_point self.m2w_matrix relative_pos
  ({ self with attached_lightsources := self.attached_lightsources ++ [new_light] },
   log ++ [LightCall.move_to light light_pos, LightCall.upload light])

/-- The function `Model::move_to` (lines 98-107). -/
def move_to (self : Model F) (world_coord : Vec3 F) (log : List (LightCall F)) :
    Model F × List (LightCall F) :=
  let self1 : Model F :=
    { self with
      m2w_matrix := glm.translate (1 : Mat4 F) world_coord * self.rot_matrix,
      world_coord := world_coord }
  (self1, update_lights self1 log)

/-- The function `Model::move` (lines 110-112). -/
def move (self : Model F) (relative : Vec3 F) (log : List (LightCall F)) :
    Model F × List (LightCall F) :=
  move_to self (Vec3.add self.world_coord relative) log

/-- The function `Model::rotate` (lines 115-124). -/
def rotate (ext : Extern F) (self : Model F) (axis : Vec3 F) (angle : F)
    (log : List (LightCall F)) : Model F × List (LightCall F) :=
  let rot := ext.rotate self.rot_matrix angle axis
  let self1 : Model F :=
    { self with
      rot_matrix := rot,
      m2w_matrix := glm.translate (1 : Mat4 F) self.world_coord * rot }
  (self1, update_lights self1 log)

/-- The function `Model::get_lights` (lines 248-255). -/
def get_lights (self : Model F) : List LightPtr :=
  self.attached_lightsources.foldl (fun lights container => lights ++ [container.light]) []

/-- The function `Model::get_loaded_models` (lines 300-303). -/
def get_loaded_models (g : Globals) : List ModelPtr := g.loaded_models

/-- The function `Model::get_loaded_flat_models` (lines 307-310). -/
def get_loaded_flat_models (g : Globals) : List ModelPtr := g.loaded_flat_models

/-- The function `Model::get_meshes` (lines 312-315). -/
def get_meshes (self : Model F) : List (Mesh F) := self.meshes

end Model

/-- The position last given to `light`: the argument of the last `move_to` call the log
records for it, if any. -/
def last_position {F : Type} (log : List (LightCall F)) (light : LightPtr) : Option (Vec3 F) :=
  log.foldl
    (fun acc call =>
      match call with
      | LightCall.move_to l pos => if l = light then some pos else acc
      | _ => acc)
    none

/-- The arguments of one `Model` construction, with the address of the new object. -/
structure CtorArgs (F : Type) where
  this : ModelPtr
  path : String
  rot_matrix : Mat4 F
  world_coord : Vec3 F
  scale : F
  flat : Bool

/-- A sequence of `Model` constructions, run one after the other on the static members. -/
def construct_all {F : Type} [LinearOrderedField F] (ext : Extern F) :
    Globals → List (CtorArgs F) → Except Fault Globals
  | g, [] => .ok g
  | g, a :: rest =>
    match Model.construct ext g a.this a.path a.rot_matrix a.world_coord a.scale a.flat with
    | .error e => .error e
    | .ok (_, g1) => construct_all ext g1 rest

open Model

/-! ## Observations used by the theorems -/

section Observations

variable {F : Type}

/-- The paths of the cached textures, in cache order. -/
def paths (cache : List Texture) : List String := cache.map (fun t => t.path)

/-- The position of the first cached texture whose path is `f` (the cache size if none). -/
def lookup (cache : List Texture) (f : String) : Nat :=
  cache.findIdx (fun t => decide (t.path = f))

/-- One conversion request: the directory of the owning model, the imported mesh and its scene. -/
structure MeshJob (F : Type) where
  directory : String
  ai_mesh : aiMesh F
  scene : aiScene F

/-- A sequence of `Model::load_mesh` calls on the shared texture cache. -/
def load_mesh_all [LinearOrderedField F] (ext : Extern F) :
    List Texture → List (MeshJob F) → Except Fault (List (Mesh F) × List Texture)
  | c, [] => .ok ([], c)
  | c, j :: rest =>
    match load_mesh ext j.directory j.ai_mesh j.scene c with
    | .error e => .error e
    | .ok (m, c1) =>
      match load_mesh_all ext c1 rest with
      | .error e => .error e
      | .ok (ms, c2) => .ok (m :: ms, c2)

/-- The file names of the texture slots of the material of a job: diffuse, then specular. -/
def job_names (j : MeshJob F) : List String :=
  match j.scene.mMaterials[j.ai_mesh.mMaterialIndex]? with
  | some material => material.diffuse ++ material.specular
  | none => []

/-- The components of a list of vectors, vertex after vertex. -/
def flatten3 : List (Vec3 F) → List F
  | [] => []
  | v :: rest => v.x :: v.y :: v.z :: flatten3 rest

end Observations

/-! ## Example data -/

/-- An imported triangle without UV channel. -/
def demo_mesh : aiMesh ℚ :=
  { mVertices := [⟨0, 0, 0⟩, ⟨1, 0, 0⟩, ⟨0, 1, 0⟩],
    mNormals := [⟨0, 0, 1⟩, ⟨0, 0, 1⟩, ⟨0, 0, 1⟩],
    mTextureCoords0 := none,
    mFaces := [⟨[0, 1, 2]⟩],
    mMaterialIndex := 0 }

/-- A scene with one node, one mesh and one material with one diffuse texture. -/
def demo_scene : aiScene ℚ :=
  { mFlags := 0,
    mRootNode := some (aiNode.mk [0] []),
    mMeshes := [demo_mesh],
    mMaterials := [⟨32, ["brick.png"], []⟩] }

/-- An environment in which `assets/tri.obj` imports as `demo_scene` and only
`assets/brick.png` decodes. -/
def demo_ext : Extern ℚ :=
  { sqrt := Rat.sqrt,
    rotate := fun m _ _ => m,
    ReadFile := fun p => if p = "assets/tri.obj" then some demo_scene else none,
    IMG_Load := fun p => if p = "assets/brick.png" then some ⟨1, 1⟩ else none }

/-- Model A at address 7 with `flat = false`, then model B at address 9 with `flat = true`. -/
def demo_reqs : List (CtorArgs ℚ) :=
  [⟨7, "assets/tri.obj", 1, ⟨0, 0, 0⟩, 1, false⟩, ⟨9, "assets/tri.obj", 1, ⟨0, 0, 0⟩, 1, true⟩]

/-- A second triangle, using material 1. -/
def demo_mesh_b : aiMesh ℚ := { demo_mesh with mMaterialIndex := 1 }

/-- A scene whose two materials both reference `brick.png`. -/
def demo_scene_two : aiScene ℚ :=
  { mFlags := 0,
    mRootNode := some (aiNode.mk [0, 1] []),
    mMeshes := [demo_mesh, demo_mesh_b],
    mMaterials := [⟨32, ["brick.png"], []⟩, ⟨8, ["brick.png"], []⟩] }

/-- The two conversions of `demo_scene_two`. -/
def demo_jobs : List (MeshJob ℚ) :=
  [⟨"assets", demo_mesh, demo_scene_two⟩, ⟨"assets", demo_mesh_b, demo_scene_two⟩]

/-- A scene whose material references a file that does not decode. -/
def demo_scene_missing : aiScene ℚ :=
  { demo_scene with mMaterials := [⟨32, ["missing.png", "brick.png"], []⟩] }

/-- A converted triangle with corners `(0,0,0)`, `(2,0,0)`, `(0,4,0)`: it lies in the plane
`z = 0`. -/
def flat_triangle : Mesh ℚ :=
  { (new_Mesh : Mesh ℚ) with
    index_count := 3, vertex_count := 3,
    vertices := [0, 0, 0, 2, 0, 0, 0, 4, 0],
    normals := [0, 0, 1, 0, 0, 1, 0, 0, 1],
    tex_coords := [0, 0, 0, 0, 0, 0],
    indices := [0, 1, 2] }

/-- A model at the origin with identity rotation and scale 1 whose only mesh is
`flat_triangle`. -/
def flat_triangle_model : Model ℚ :=
  { Model.init (1 : Mat4 ℚ) ⟨0, 0, 0⟩ 1 with meshes := [flat_triangle] }

/-- A model at the origin (identity rotation, scale 1) to which light 5 was attached twice,
at `(1, 0, 0)` and then at `(2, 0, 0)`. -/
def two_light_model : Model ℚ :=
  (attach_light (attach_light (Model.init (1 : Mat4 ℚ) ⟨0, 0, 0⟩ 1) 5 ⟨1, 0, 0⟩ []).1
    5 ⟨2, 0, 0⟩ []).1

/-- An imported mesh made of one line segment: a face with two indices, as the importer's
triangulation leaves it. -/
def line_mesh : aiMesh ℚ :=
  { mVertices := [⟨0, 0, 0⟩, ⟨1, 0, 0⟩],
    mNormals := [⟨0, 0, 1⟩, ⟨0, 0, 1⟩],
    mTextureCoords0 := none,
    mFaces := [⟨[0, 1]⟩],
    mMaterialIndex := 0 }

/-- A scene whose single mesh is `line_mesh`, with an untextured material. -/
def line_scene : aiScene ℚ :=
  { mFlags := 0,
    mRootNode := some (aiNode.mk [0] []),
    mMeshes := [line_mesh],
    mMaterials := [⟨32, [], []⟩] }

/-- An imported mesh without vertices and with `n` (degenerate) triangles. -/
def faces_only_mesh (n : Nat) : aiMesh ℚ :=
  { mVertices := [],
    mNormals := [],
    mTextureCoords0 := none,
    mFaces := List.replicate n ⟨[0, 0, 0]⟩,
    mMaterialIndex := 0 }

/-- A material with two diffuse slots and one specular slot. -/
def demo_scene_roles : aiScene ℚ :=
  { demo_scene with mMaterials := [⟨32, ["brick.png", "wood.png"], ["brick.png"]⟩] }

/-- An environment in which every image decodes. -/
def demo_ext_all : Extern ℚ :=
  { demo_ext with IMG_Load := fun _ => some ⟨1, 1⟩ }

mutual
/-- The mesh references of a node tree in pre-order: the node's own mesh indices in their
listed order, then the references of each child's subtree, in child order. -/
def preorder_refs : aiNode → List Nat
  | .mk mMeshes mChildren => mMeshes ++ preorder_refs_children mChildren
/-- The pre-order mesh references of a list of subtrees, one subtree after the other. -/
def preorder_refs_children : List aiNode → List Nat
  | [] => []
  | c :: cs => preorder_refs c ++ preorder_refs_children cs
end

/-- A tree with a root holding meshes 0 and 1 and two children; the first child and its own
child both reference mesh 0. -/
def demo_tree : aiNode :=
  aiNode.mk [0, 1] [aiNode.mk [0] [aiNode.mk [0] []], aiNode.mk [1] []]

/-- The scene of `demo_scene_two` with `demo_tree` as its node tree. -/
def demo_scene_tree : aiScene ℚ := { demo_scene_two with mRootNode := some demo_tree }

section RoleObservations

variable {F : Type}

/-- The role stored on the cached texture whose path is `f`, if there is one. -/
def cached_role (cache : List Texture) (f : String) : Option TextureType :=
  (cache[lookup cache f]?).map (fun t => t.type)

/-- The texture slots of a material in the order `load_mesh` resolves them, each with the
role `load_mesh` writes for it. -/
def material_slots (material : aiMaterial F) : List (TextureType × String) :=
  material.diffuse.map (fun f => (TextureType.DIFFUSE, f)) ++
    material.specular.map (fun f => (TextureType.SPECULAR, f))

/-- The texture slots of a conversion request. -/
def job_slots (j : MeshJob F) : List (TextureType × String) :=
  match j.scene.mMaterials[j.ai_mesh.mMaterialIndex]? with
  | some material => material_slots material
  | none => []

/-- The texture slots of a sequence of conversion requests, in resolution order. -/
def all_slots : List (MeshJob F) → List (TextureType × String)
  | [] => []
  | j :: rest => job_slots j ++ all_slots rest

/-- The role of the last slot of `slots` that names `f`, or `r0` if no slot names it. -/
def last_role (r0 : Option TextureType) (slots : List (TextureType × String)) (f : String) :
    Option TextureType :=
  slots.foldl (fun acc s => if s.2 = f then some s.1 else acc) r0

end RoleObservations

/-- Two conversions: a material using `brick.png` as diffuse, then one using it as specular. -/
def demo_jobs_roles : List (MeshJob ℚ) :=
  [⟨"assets", demo_mesh, demo_scene⟩,
   ⟨"assets", demo_mesh, { demo_scene with mMaterials := [⟨32, [], ["brick.png"]⟩] }⟩]

section BoxObservations

variable {F : Type} [LinearOrderedField F]

/-- The bounds `bd1` are at least as wide as `bd` on every axis. -/
def Bounds.widens (bd bd1 : Bounds F) : Prop :=
  bd.x_max ≤ bd1.x_max ∧ bd.y_max ≤ bd1.y_max ∧ bd.z_max ≤ bd1.z_max ∧
  bd1.x_min ≤ bd.x_min ∧ bd1.y_min ≤ bd.y_min ∧ bd1.z_min ≤ bd.z_min

/-- The point `(x, y, z)` lies in the box of the bounds. -/
def Bounds.contains (bd : Bounds F) (x y z : F) : Prop :=
  x ≤ bd.x_max ∧ y ≤ bd.y_max ∧ z ≤ bd.z_max ∧ bd.x_min ≤ x ∧ bd.y_min ≤ y ∧ bd.z_min ≤ z

end BoxObservations

/-- A model whose second mesh has no vertices. -/
def empty_mesh_model : Model ℚ :=
  { Model.init (1 : Mat4 ℚ) ⟨0, 0, 0⟩ 1 with meshes := [flat_triangle, new_Mesh] }

section CubeData

variable (F : Type) [LinearOrderedField F]

/-- The 8 corners of the cube `[-1, +1]^3`. -/
def cube_corners : List (Vec3 F) :=
  [⟨-1, -1, -1⟩, ⟨1, -1, -1⟩, ⟨1, 1, -1⟩, ⟨-1, 1, -1⟩,
   ⟨-1, -1, 1⟩, ⟨1, -1, 1⟩, ⟨1, 1, 1⟩, ⟨-1, 1, 1⟩]

/-- An imported cube: the 8 corners, 12 triangles, no UV channel. -/
def cube_mesh : aiMesh F :=
  { mVertices := cube_corners F,
    mNormals := cube_corners F,
    mTextureCoords0 := none,
    mFaces := [⟨[0, 1, 2]⟩, ⟨[0, 2, 3]⟩, ⟨[4, 6, 5]⟩, ⟨[4, 7, 6]⟩, ⟨[0, 4, 5]⟩, ⟨[0, 5, 1]⟩,
               ⟨[3, 2, 6]⟩, ⟨[3, 6, 7]⟩, ⟨[0, 3, 7]⟩, ⟨[0, 7, 4]⟩, ⟨[1, 5, 6]⟩, ⟨[1, 6, 2]⟩],
    mMaterialIndex := 0 }

/-- A scene whose single mesh is the cube, with an untextured material. -/
def cube_scene : aiScene F :=
  { mFlags := 0,
    mRootNode := some (aiNode.mk [0] []),
    mMeshes := [cube_mesh F],
    mMaterials := [⟨32, [], []⟩] }

/-- An environment in which every path imports as the cube scene. -/
def cube_ext (sqrt : F → F) : Extern F :=
  { sqrt := sqrt,
    rotate := fun m _ _ => m,
    ReadFile := fun _ => some (cube_scene F),
    IMG_Load := fun _ => none }
end CubeData

/-! ## Theorems -/

section TextureCache

variable {F : Type}

theorem findIdx_map_eq {α β : Type} (g : α → β) (p : β → Bool) (l : List α) :
    (l.map g).findIdx p = l.findIdx (fun a => p (g a)) := by
  induction l with
  | nil => rfl
  | cons a l ih => simp [List.findIdx_cons, ih]

theorem lookup_eq_paths (cache : List Texture) (f : String) :
    lookup cache f = (paths cache).findIdx (fun p => decide (p = f)) := by
  unfold lookup paths
  rw [findIdx_map_eq]

theorem lookup_lt_iff (cache : List Texture) (f : String) :
    lookup cache f < cache.length ↔ f ∈ paths cache := by
  unfold lookup paths
  rw [List.findIdx_lt_length]
  simp only [decide_eq_true_eq, List.mem_map]

theorem lookup_congr (c1 c2 : List Texture) (f : String) (h : paths c1 = paths c2) :
    lookup c1 f = lookup c2 f := by
  rw [lookup_eq_paths, lookup_eq_paths, h]

theorem lookup_stable (c1 c2 : List Texture) (f : String) (hpre : paths c1 <+: paths c2)
    (hf : f ∈ paths c1) : lookup c2 f = lookup c1 f := by
  rw [lookup_eq_paths, lookup_eq_paths]
  apply List.IsPrefix.findIdx_eq_of_findIdx_lt_length hpre
  have := (lookup_lt_iff c1 f).2 hf
  rw [lookup_eq_paths] at this
  simpa [paths] using this

theorem load_texture_cases (ext : Extern F) (f b : String) (c c1 : List Texture) (t : TexturePtr)
    (h : load_texture ext f b c = .ok (t, c1)) :
    (f ∈ paths c ∧ c1 = c ∧ t = lookup c f) ∨
    (f ∉ paths c ∧ c1 = c ++ [⟨TextureType.DIFFUSE, ""⟩] ∧ t = c.length) := by
  unfold load_texture at h
  simp only at h
  split at h
  · rename_i hlt
    left
    cases h
    exact ⟨(lookup_lt_iff _ _).1 hlt, rfl, rfl⟩
  · rename_i hlt
    right
    split at h
    · cases h
    · cases h
      exact ⟨fun hm => hlt ((lookup_lt_iff _ _).2 hm), rfl, rfl⟩

theorem paths_set_self (c : List Texture) (i : Nat) (ty : TextureType) (f : String)
    (h : (paths c)[i]? = some f) : paths (c.set i ⟨ty, f⟩) = paths c := by
  unfold paths at *
  rw [List.map_set]
  apply List.ext_getElem?
  intro j
  by_cases hj : i = j
  · subst hj
    rw [List.getElem?_set_eq_of_lt]
    · exact h.symm
    · have := h
      by_contra hc
      rw [List.getElem?_eq_none (by omega)] at this
      cases this
  · rw [List.getElem?_set_ne hj]

theorem load_mesh_texture_spec (ext : Extern F) (d : String) (ty : TextureType) (f : String)
    (mt mt1 : List TexturePtr) (c c1 : List Texture)
    (h : load_mesh_texture ext d ty (mt, c) f = .ok (mt1, c1)) :
    mt1 = mt ++ [lookup c1 f] ∧ f ∈ paths c1 ∧
    paths c1 = (if f ∈ paths c then paths c else paths c ++ [f]) := by
  unfold load_mesh_texture at h
  split at h
  · cases h
  · rename_i t c0 hl
    simp only [Except.ok.injEq, Prod.mk.injEq] at h
    obtain ⟨rfl, rfl⟩ := h
    rcases load_texture_cases ext f d c c0 t hl with ⟨hm, rfl, rfl⟩ | ⟨hm, rfl, rfl⟩
    · have hlt := (lookup_lt_iff c0 f).2 hm
      have hget : (paths c0)[lookup c0 f]? = some f := by
        have h1 : lookup c0 f < (paths c0).length := by simpa [paths] using hlt
        rw [List.getElem?_eq_getElem h1]
        have := @List.findIdx_getElem _ (fun p => decide (p = f)) (paths c0)
          (by rw [← lookup_eq_paths]; exact h1)
        simp only [decide_eq_true_eq] at this
        simp only [lookup_eq_paths]
        exact congrArg some this
      have hp := paths_set_self c0 (lookup c0 f) ty f hget
      refine ⟨?_, ?_, ?_⟩
      · rw [lookup_congr _ _ f hp]
      · rw [hp]; exact hm
      · rw [hp, if_pos hm]
    · have hp : paths ((c ++ [(⟨TextureType.DIFFUSE, ""⟩ : Texture)]).set c.length ⟨ty, f⟩) = paths c ++ [f] := by
        unfold paths
        rw [List.set_append_right _ _ (le_refl _)]
        simp
      refine ⟨?_, ?_, ?_⟩
      · congr 2
        rw [lookup_eq_paths, hp, List.findIdx_append]
        have hnot : ¬ ((paths c).findIdx (fun p => decide (p = f)) < (paths c).length) := by
          rw [List.findIdx_lt_length]
          simpa using hm
        rw [if_neg hnot]
        simp [paths, List.findIdx_cons]
      · rw [hp]; simp
      · rw [hp, if_neg hm]

theorem load_textures_spec (ext : Extern F) (d : String) (ty : TextureType) (names : List String) :
    ∀ (mt : List TexturePtr) (c : List Texture) (mt1 : List TexturePtr) (c1 : List Texture),
      names.foldlM (load_mesh_texture ext d ty) (mt, c) = .ok (mt1, c1) →
      mt1 = mt ++ names.map (lookup c1) ∧ paths c <+: paths c1 ∧
      (∀ p, p ∈ paths c1 ↔ p ∈ paths c ∨ p ∈ names) ∧
      ((paths c).Nodup → (paths c1).Nodup) := by
  induction names with
  | nil =>
    intro mt c mt1 c1 h
    simp only [List.foldlM_nil, pure, Except.pure, Except.ok.injEq, Prod.mk.injEq] at h
    obtain ⟨rfl, rfl⟩ := h
    simp
  | cons f rest ih =>
    intro mt c mt1 c1 h
    rw [List.foldlM_cons] at h
    cases hstep : load_mesh_texture ext d ty (mt, c) f with
    | error e => simp [hstep, bind, Except.bind] at h
    | ok st =>
      obtain ⟨mt0, c0⟩ := st
      simp only [hstep, bind, Except.bind] at h
      obtain ⟨h1, h2, h3⟩ := load_mesh_texture_spec ext d ty f mt mt0 c c0 hstep
      obtain ⟨k1, k2, k3, k4⟩ := ih mt0 c0 mt1 c1 h
      have hpre : paths c <+: paths c0 := by
        rw [h3]; split
        · exact List.prefix_refl _
        · exact List.prefix_append _ _
      refine ⟨?_, hpre.trans k2, ?_, ?_⟩
      · rw [k1, h1, List.map_cons, lookup_stable c0 c1 f k2 h2]
        simp
      · intro p
        rw [k3 p, h3]
        split
        · rename_i hm
          simp only [List.mem_cons]
          constructor
          · rintro (h | h)
            · exact Or.inl h
            · exact Or.inr (Or.inr h)
          · rintro (h | rfl | h)
            · exact Or.inl h
            · exact Or.inl hm
            · exact Or.inr h
        · simp only [List.mem_append, List.mem_singleton, List.mem_cons]
          tauto
      · intro hn
        apply k4
        rw [h3]
        split
        · exact hn
        · rename_i hm
          rw [List.nodup_append]
          refine ⟨hn, List.nodup_singleton _, ?_⟩
          intro a ha hb
          rw [List.mem_singleton] at hb
          subst hb
          exact hm ha

/-- A slot whose file is cached or decodes is resolved. -/
theorem load_mesh_texture_total (ext : Extern F) (d : String) (ty : TextureType) (f : String)
    (mt : List TexturePtr) (c : List Texture)
    (h : f ∈ paths c ∨ ext.IMG_Load (d ++ "/" ++ f) ≠ none) :
    ∃ st, load_mesh_texture ext d ty (mt, c) f = .ok st := by
  unfold load_mesh_texture load_texture
  simp only
  by_cases hm : f ∈ paths c
  · have hlt : List.findIdx (fun t => decide (t.path = f)) c < c.length :=
      (lookup_lt_iff c f).2 hm
    rw [if_pos hlt]
    exact ⟨_, rfl⟩
  · have hlt : ¬ (List.findIdx (fun t => decide (t.path = f)) c < c.length) :=
      fun hlt => hm ((lookup_lt_iff c f).1 hlt)
    rw [if_neg hlt]
    rcases h with h | h
    · exact absurd h hm
    · cases hload : ext.IMG_Load (d ++ "/" ++ f) with
      | none => exact absurd hload h
      | some s => exact ⟨_, rfl⟩

/-- A texture loop all of whose files are cached or decode runs to its end. -/
theorem load_textures_total (ext : Extern F) (d : String) (ty : TextureType)
    (names : List String) :
    ∀ (mt : List TexturePtr) (c : List Texture),
      (∀ f ∈ names, f ∈ paths c ∨ ext.IMG_Load (d ++ "/" ++ f) ≠ none) →
      ∃ st, names.foldlM (load_mesh_texture ext d ty) (mt, c) = .ok st := by
  induction names with
  | nil => intro mt c _; exact ⟨_, rfl⟩
  | cons f rest ih =>
    intro mt c h
    obtain ⟨⟨mt0, c0⟩, hstep⟩ :=
      load_mesh_texture_total ext d ty f mt c (h f (List.mem_cons_self _ _))
    obtain ⟨-, -, h3⟩ := load_mesh_texture_spec ext d ty f mt mt0 c c0 hstep
    have hrest : ∀ g ∈ rest, g ∈ paths c0 ∨ ext.IMG_Load (d ++ "/" ++ g) ≠ none := by
      intro g hg
      rcases h g (List.mem_cons_of_mem _ hg) with hc | hc
      · left
        rw [h3]
        split
        · exact hc
        · exact List.mem_append_left _ hc
      · exact Or.inr hc
    obtain ⟨st, hst⟩ := ih mt0 c0 hrest
    refine ⟨st, ?_⟩
    rw [List.foldlM_cons]
    simp only [hstep, bind, Except.bind]
    exact hst

end TextureCache

section Geometry

variable {F : Type}

theorem flatten3_append (l1 l2 : List (Vec3 F)) :
    flatten3 (l1 ++ l2) = flatten3 l1 ++ flatten3 l2 := by
  induction l1 with
  | nil => rfl
  | cons v rest ih => simp [flatten3, ih]

theorem flatten3_length (l : List (Vec3 F)) : (flatten3 l).length = 3 * l.length := by
  induction l with
  | nil => rfl
  | cons v rest ih => simp [flatten3, ih]; omega

theorem flatten3_getElem? (l : List (Vec3 F)) :
    ∀ (i : Nat) (v : Vec3 F), l[i]? = some v →
      (flatten3 l)[3 * i]? = some v.x ∧ (flatten3 l)[3 * i + 1]? = some v.y ∧
      (flatten3 l)[3 * i + 2]? = some v.z := by
  induction l with
  | nil => intro i v h; simp at h
  | cons w rest ih =>
    intro i v h
    cases i with
    | zero =>
      simp only [List.getElem?_cons_zero, Option.some.injEq] at h
      subst h
      simp [flatten3]
    | succ j =>
      simp only [List.getElem?_cons_succ] at h
      obtain ⟨h1, h2, h3⟩ := ih j v h
      have e1 : 3 * (j + 1) = (3 * j) + 1 + 1 + 1 := by ring
      have e2 : 3 * j + 1 + 1 + 1 + 1 = (3 * j + 1) + 1 + 1 + 1 := by ring
      have e3 : 3 * j + 1 + 1 + 1 + 2 = (3 * j + 2) + 1 + 1 + 1 := by ring
      rw [e1, e2, e3]
      simp only [flatten3, List.getElem?_cons_succ]
      exact ⟨h1, h2, h3⟩

theorem take_succ_of_getElem? {α : Type} (l : List α) (k : Nat) (a : α) (h : l[k]? = some a) :
    l.take (k + 1) = l.take k ++ [a] := by
  rw [List.take_succ, h]; rfl

variable [LinearOrderedField F]

/-- What one pass of the vertex loop does to the mesh under construction. -/
theorem load_mesh_vertex_spec (ai : aiMesh F) (m m1 : Mesh F) (i : Nat)
    (h : load_mesh_vertex ai m i = .ok m1) :
    ∃ p n, ai.mVertices[i]? = some p ∧ ai.mNormals[i]? = some n ∧
      m1.vertices = m.vertices ++ [p.x, p.y, p.z] ∧
      m1.normals = m.normals ++ [n.x, n.y, n.z] ∧
      m1.tex_coords.length = m.tex_coords.length + 2 ∧
      (ai.mTextureCoords0 = none → m1.tex_coords = m.tex_coords ++ [0, 0]) ∧
      m1.index_count = m.index_count ∧ m1.vertex_count = m.vertex_count ∧
      m1.indices = m.indices ∧ m1.shininess = m.shininess ∧ m1.textures = m.textures := by
  unfold load_mesh_vertex at h
  split at h
  · rename_i p n hp hn
    refine ⟨p, n, hp, hn, ?_⟩
    simp only at h
    split at h
    · rename_i huv
      split at h
      · cases h
      · rename_i ch hch
        split at h
        · cases h
          simp [hch]
        · cases h
    · cases h
      simp
  · cases h

/-- The mesh after the first `k` passes of the vertex loop. -/
theorem load_mesh_vertices_spec (ai : aiMesh F) (m0 : Mesh F) (k : Nat) :
    ∀ m, (List.range k).foldlM (load_mesh_vertex ai) m0 = .ok m →
      m.vertices = m0.vertices ++ flatten3 (ai.mVertices.take k) ∧
      m.normals = m0.normals ++ flatten3 (ai.mNormals.take k) ∧
      m.tex_coords.length = m0.tex_coords.length + 2 * k ∧
      (ai.mTextureCoords0 = none → m.tex_coords = m0.tex_coords ++ List.replicate (2 * k) 0) ∧
      m.index_count = m0.index_count ∧ m.vertex_count = m0.vertex_count ∧
      m.indices = m0.indices ∧ m.shininess = m0.shininess ∧ m.textures = m0.textures ∧
      m.normals.length = m0.normals.length + 3 * k := by
  induction k with
  | zero =>
    intro m h
    simp only [List.range_zero, List.foldlM_nil, pure, Except.pure, Except.ok.injEq] at h
    subst h
    simp [flatten3]
  | succ k ih =>
    intro m h
    rw [List.range_succ, List.foldlM_append] at h
    cases hk : (List.range k).foldlM (load_mesh_vertex ai) m0 with
    | error e => simp [hk, bind, Except.bind] at h
    | ok mk =>
      simp only [hk, bind, Except.bind, List.foldlM_cons, List.foldlM_nil, pure, Except.pure] at h
      have hstep : load_mesh_vertex ai mk k = .ok m := by
        cases hs : load_mesh_vertex ai mk k with
        | error e => simp [hs] at h
        | ok m2 => simp [hs] at h; rw [h]
      obtain ⟨a1, a2, a3, a4, a5, a6, a7, a8, a9, a10⟩ := ih mk hk
      obtain ⟨p, n, hp, hn, b1, b2, b3, b4, b5, b6, b7, b8, b9⟩ :=
        load_mesh_vertex_spec ai mk m k hstep
      refine ⟨?_, ?_, ?_, ?_, b5.trans a5, b6.trans a6, b7.trans a7, b8.trans a8, b9.trans a9, ?_⟩
      · rw [b1, a1, take_succ_of_getElem? _ _ _ hp, flatten3_append]
        simp [flatten3]
      · rw [b2, a2, take_succ_of_getElem? _ _ _ hn, flatten3_append]
        simp [flatten3]
      · rw [b3, a3]; ring
      · intro hnone
        rw [b4 hnone, a4 hnone, List.append_assoc]
        congr 1
        have : 2 * (k + 1) = 2 * k + 2 := by ring
        rw [this, List.replicate_add]
        rfl
      · rw [b2, List.length_append, a10]
        simp only [List.length_cons, List.length_nil]
        ring

/-- One pass of the vertex loop succeeds at an index that is in range of every array. -/
theorem load_mesh_vertex_total (ai : aiMesh F) (k : Nat) (hv : k < ai.mVertices.length)
    (hn : k < ai.mNormals.length) (huv : ∀ ch, ai.mTextureCoords0 = some ch → k < ch.length)
    (m0 : Mesh F) : ∃ m, load_mesh_vertex ai m0 k = .ok m := by
  have h1 : ai.mVertices[k]? = some (ai.mVertices[k]) := List.getElem?_eq_getElem hv
  have h2 : ai.mNormals[k]? = some (ai.mNormals[k]) := List.getElem?_eq_getElem hn
  unfold load_mesh_vertex
  rw [h1, h2]
  simp only
  by_cases hhas : HasTextureCoords0 ai = true
  · rw [if_pos hhas]
    cases hch : ai.mTextureCoords0 with
    | none => simp [HasTextureCoords0, hch] at hhas
    | some ch =>
      obtain ⟨t, h3⟩ : ∃ t, ch[k]? = some t := ⟨_, List.getElem?_eq_getElem (huv ch hch)⟩
      simp only [h3]
      exact ⟨_, rfl⟩
  · rw [if_neg hhas]
    exact ⟨_, rfl⟩

/-- The vertex loop runs to its end on arrays that are long enough. -/
theorem load_mesh_vertices_total (ai : aiMesh F) (k : Nat) (hv : k ≤ ai.mVertices.length)
    (hn : k ≤ ai.mNormals.length) (huv : ∀ ch, ai.mTextureCoords0 = some ch → k ≤ ch.length) :
    ∀ m0, ∃ m, (List.range k).foldlM (load_mesh_vertex ai) m0 = .ok m := by
  induction k with
  | zero => intro m0; exact ⟨m0, rfl⟩
  | succ k ih =>
    intro m0
    obtain ⟨mk, hk⟩ := ih (by omega) (by omega) (fun ch hch => by have := huv ch hch; omega) m0
    obtain ⟨m, hm⟩ := load_mesh_vertex_total ai k (by omega) (by omega)
      (fun ch hch => by have := huv ch hch; omega) mk
    refine ⟨m, ?_⟩
    rw [List.range_succ, List.foldlM_append]
    simp only [hk, bind, Except.bind, List.foldlM_cons, List.foldlM_nil, pure, Except.pure, hm]

/-- The geometry part of a conversion, when it completes. -/
theorem load_mesh_geometry_spec (ai : aiMesh F) (m : Mesh F) (h : load_mesh_geometry ai = .ok m) :
    m.vertex_count = ai.mVertices.length ∧
    m.index_count = (3 * ai.mFaces.length) % 2 ^ 32 ∧
    m.vertices = flatten3 ai.mVertices ∧
    m.normals = flatten3 (ai.mNormals.take ai.mVertices.length) ∧
    m.normals.length = 3 * ai.mVertices.length ∧
    m.tex_coords.length = 2 * ai.mVertices.length ∧
    (ai.mTextureCoords0 = none → m.tex_coords = List.replicate (2 * ai.mVertices.length) 0) ∧
    m.indices = ai.mFaces.foldl (fun acc face => acc ++ face.mIndices) [] ∧
    m.textures = [] := by
  unfold load_mesh_geometry at h
  simp only at h
  split at h
  · cases h
  · rename_i m1 hfold
    cases h
    obtain ⟨a1, a2, a3, a4, a5, a6, a7, a8, a9, a10⟩ := load_mesh_vertices_spec ai _ _ m1 hfold
    simp only [new_Mesh, List.nil_append, List.length_nil, Nat.zero_add]
      at a1 a2 a3 a4 a5 a6 a7 a9 a10
    refine ⟨a6, a5, ?_, a2, a10, a3, a4, ?_, a9⟩
    · simp only [a1, List.take_length]
    · simp only [a7]

/-- The geometry part completes on a well-formed imported mesh. -/
theorem load_mesh_geometry_total (ai : aiMesh F) (hn : ai.mVertices.length ≤ ai.mNormals.length)
    (huv : ∀ ch, ai.mTextureCoords0 = some ch → ai.mVertices.length ≤ ch.length) :
    ∃ m, load_mesh_geometry ai = .ok m := by
  unfold load_mesh_geometry
  simp only
  obtain ⟨m1, h1⟩ := load_mesh_vertices_total ai ai.mVertices.length (le_refl _) hn huv
    { (new_Mesh : Mesh F) with
      index_count := (3 * ai.mFaces.length) % 2 ^ 32,
      vertex_count := ai.mVertices.length }
  rw [h1]
  exact ⟨_, rfl⟩

end Geometry

section Conversion

variable {F : Type} [LinearOrderedField F]

/-- A completed conversion: the geometry is that of `load_mesh_geometry`, the texture list
holds, slot by slot, the cache position of the slot's file name. -/
theorem load_mesh_spec (ext : Extern F) (d : String) (ai : aiMesh F) (scene : aiScene F)
    (c c1 : List Texture) (m : Mesh F) (h : load_mesh ext d ai scene c = .ok (m, c1)) :
    ∃ mg material, load_mesh_geometry ai = .ok mg ∧
      scene.mMaterials[ai.mMaterialIndex]? = some material ∧
      m = { mg with shininess := material.shininess / 4,
                    textures := (material.diffuse ++ material.specular).map (lookup c1) } ∧
      paths c <+: paths c1 ∧
      (∀ p, p ∈ paths c1 ↔ p ∈ paths c ∨ p ∈ material.diffuse ++ material.specular) ∧
      ((paths c).Nodup → (paths c1).Nodup) := by
  unfold load_mesh at h
  split at h
  · cases h
  · rename_i mg hg
    split at h
    · cases h
    · rename_i material hmat
      simp only at h
      split at h
      · cases h
      · rename_i st1 hd
        split at h
        · cases h
        · rename_i st2 hs
          obtain ⟨mt1, ca⟩ := st1
          obtain ⟨mt2, cb⟩ := st2
          simp only [Except.ok.injEq, Prod.mk.injEq] at h
          obtain ⟨rfl, rfl⟩ := h
          have htex := (load_mesh_geometry_spec ai mg hg).2.2.2.2.2.2.2.2
          rw [htex] at hd
          obtain ⟨a1, a2, a3, a4⟩ := load_textures_spec ext d _ _ _ _ _ _ hd
          obtain ⟨b1, b2, b3, b4⟩ := load_textures_spec ext d _ _ _ _ _ _ hs
          refine ⟨mg, material, hg, hmat, ?_, a2.trans b2, ?_, fun hn => b4 (a4 hn)⟩
          · congr 1
            rw [b1, a1, List.map_append, List.nil_append]
            congr 1
            apply List.map_congr_left
            intro f hf
            have hfa : f ∈ paths ca := (a3 f).2 (Or.inr hf)
            exact (lookup_stable ca cb f b2 hfa).symm
          · intro p
            rw [b3 p, a3 p, List.mem_append]
            tauto

end Conversion

section Sweep

variable {F : Type} [LinearOrderedField F]

/-- One pass of the sweep in closed form: each bound is a running maximum or minimum. -/
theorem sweep_step_eq (bd : Bounds F) (a b c : F) :
    sweep_step bd a b c =
      ⟨max bd.x_max a, max bd.y_max b, max bd.z_max c,
       min bd.x_min a, min bd.y_min b, min bd.z_min c⟩ := by
  unfold sweep_step
  simp only [gt_iff_lt]
  have hmax : ∀ u v : F, (if u < v then v else u) = max u v := by
    intro u v
    rcases lt_or_le u v with h | h
    · rw [if_pos h, max_eq_right h.le]
    · rw [if_neg (not_lt.2 h), max_eq_left h]
  have hmin : ∀ u v : F, (if v < u then v else u) = min u v := by
    intro u v
    rcases lt_or_le v u with h | h
    · rw [if_pos h, min_eq_right h.le]
    · rw [if_neg (not_lt.2 h), min_eq_left h]
  by_cases h1 : bd.x_max < a <;> by_cases h2 : bd.y_max < b <;> by_cases h3 : bd.z_max < c <;>
    by_cases h4 : a < bd.x_min <;> by_cases h5 : b < bd.y_min <;> by_cases h6 : c < bd.z_min <;>
    simp only [h1, h2, h3, h4, h5, h6, if_true, if_false] <;>
    simp only [← hmax, ← hmin, h1, h2, h3, h4, h5, h6, if_true, if_false]

/-- The bound of the sweep when the subtraction does not wrap. -/
theorem sweep_bound_eq (n : Nat) (h2 : 2 ≤ n) (hn : n < 2 ^ 64) : sweep_bound n = n - 2 := by
  unfold sweep_bound
  have : n + 2 ^ 64 - 2 = (n - 2) + 2 ^ 64 := by omega
  rw [this, Nat.add_mod_right, Nat.mod_eq_of_lt (by omega)]

/-- The sweep over floats `i .. i + k + 1` of an array that has them: it completes, every
bound moves outwards only, and the bounds cover every float the sweep compared with them. -/
theorem sweep_loop_spec (vs : List F) :
    ∀ (k i : Nat) (bd : Bounds F), (i + k + 2 ≤ vs.length ∧ i + k < 2 ^ 31) ∨ k = 0 →
      ∃ bd1, sweep_loop vs k i bd = .ok bd1 ∧
        (bd.x_max ≤ bd1.x_max ∧ bd.y_max ≤ bd1.y_max ∧ bd.z_max ≤ bd1.z_max ∧
         bd1.x_min ≤ bd.x_min ∧ bd1.y_min ≤ bd.y_min ∧ bd1.z_min ≤ bd.z_min) ∧
        (∀ (j : Nat) (a b c : F), i ≤ j → j < i + k →
          vs[j]? = some a → vs[j + 1]? = some b → vs[j + 2]? = some c →
          a ≤ bd1.x_max ∧ b ≤ bd1.y_max ∧ c ≤ bd1.z_max ∧
          bd1.x_min ≤ a ∧ bd1.y_min ≤ b ∧ bd1.z_min ≤ c) := by
  intro k
  induction k with
  | zero =>
    intro i bd _
    refine ⟨bd, rfl, ⟨le_refl _, le_refl _, le_refl _, le_refl _, le_refl _, le_refl _⟩, ?_⟩
    intro j a b c h1 h2
    omega
  | succ k ih =>
    intro i bd hlen
    have hlen1 : i + (k + 1) + 2 ≤ vs.length ∧ i + (k + 1) < 2 ^ 31 := by
      rcases hlen with h | h
      · exact h
      · omega
    obtain ⟨hlen1, hint⟩ := hlen1
    obtain ⟨a, ha⟩ : ∃ a, vs[i]? = some a := ⟨_, List.getElem?_eq_getElem (by omega)⟩
    obtain ⟨b, hb⟩ : ∃ b, vs[i + 1]? = some b := ⟨_, List.getElem?_eq_getElem (by omega)⟩
    obtain ⟨c, hc⟩ : ∃ c, vs[i + 2]? = some c := ⟨_, List.getElem?_eq_getElem (by omega)⟩
    obtain ⟨bd1, hrun, hmono, hcover⟩ :=
      ih (i + 1) (sweep_step bd a b c) (Or.inl ⟨by omega, by omega⟩)
    refine ⟨bd1, ?_, ?_, ?_⟩
    · simp only [sweep_loop, ha, hb, hc]
      rw [if_pos (by omega)]
      exact hrun
    · rw [sweep_step_eq] at hmono
      simp only at hmono
      obtain ⟨m1, m2, m3, m4, m5, m6⟩ := hmono
      exact ⟨(le_max_left _ _).trans m1, (le_max_left _ _).trans m2, (le_max_left _ _).trans m3,
        m4.trans (min_le_left _ _), m5.trans (min_le_left _ _), m6.trans (min_le_left _ _)⟩
    · intro j a1 b1 c1 h1 h2 ha1 hb1 hc1
      rcases Nat.eq_or_lt_of_le h1 with h | h
      · subst h
        rw [ha] at ha1; rw [hb] at hb1; rw [hc] at hc1
        cases ha1; cases hb1; cases hc1
        rw [sweep_step_eq] at hmono
        simp only at hmono
        obtain ⟨m1, m2, m3, m4, m5, m6⟩ := hmono
        exact ⟨(le_max_right _ _).trans m1, (le_max_right _ _).trans m2,
          (le_max_right _ _).trans m3, m4.trans (min_le_right _ _),
          m5.trans (min_le_right _ _), m6.trans (min_le_right _ _)⟩
      · exact hcover j a1 b1 c1 (by omega) (by omega) ha1 hb1 hc1

/-- A property of floats that holds for the six bounds before the sweep and for every float
of the array holds for the six bounds after it. -/
theorem sweep_loop_inv (Q : F → Prop) (vs : List F) (hvs : ∀ a ∈ vs, Q a) :
    ∀ (k i : Nat) (bd bd1 : Bounds F), sweep_loop vs k i bd = .ok bd1 →
      (Q bd.x_max ∧ Q bd.y_max ∧ Q bd.z_max ∧ Q bd.x_min ∧ Q bd.y_min ∧ Q bd.z_min) →
      (Q bd1.x_max ∧ Q bd1.y_max ∧ Q bd1.z_max ∧ Q bd1.x_min ∧ Q bd1.y_min ∧ Q bd1.z_min) := by
  intro k
  induction k with
  | zero =>
    intro i bd bd1 h hq
    simp only [sweep_loop, Except.ok.injEq] at h
    subst h
    exact hq
  | succ k ih =>
    intro i bd bd1 h hq
    simp only [sweep_loop] at h
    split at h
    · rename_i a b c ha hb hc
      have qa : Q a := hvs a (List.getElem?_mem ha)
      have qb : Q b := hvs b (List.getElem?_mem hb)
      have qc : Q c := hvs c (List.getElem?_mem hc)
      split at h
      swap
      · cases h
      apply ih (i + 1) _ bd1 h
      rw [sweep_step_eq]
      obtain ⟨q1, q2, q3, q4, q5, q6⟩ := hq
      refine ⟨?_, ?_, ?_, ?_, ?_, ?_⟩
      · rcases max_choice bd.x_max a with e | e <;> rw [e] <;> assumption
      · rcases max_choice bd.y_max b with e | e <;> rw [e] <;> assumption
      · rcases max_choice bd.z_max c with e | e <;> rw [e] <;> assumption
      · rcases min_choice bd.x_min a with e | e <;> rw [e] <;> assumption
      · rcases min_choice bd.y_min b with e | e <;> rw [e] <;> assumption
      · rcases min_choice bd.z_min c with e | e <;> rw [e] <;> assumption
    · cases h

end Sweep

section BoundingSphere

variable {F : Type}

theorem mem_flatten3 (l : List (Vec3 F)) (a : F) (h : a ∈ flatten3 l) :
    ∃ v ∈ l, a = v.x ∨ a = v.y ∨ a = v.z := by
  induction l with
  | nil => simp [flatten3] at h
  | cons w rest ih =>
    simp only [flatten3, List.mem_cons] at h
    rcases h with h | h | h | h
    · exact ⟨w, List.mem_cons_self _ _, Or.inl h⟩
    · exact ⟨w, List.mem_cons_self _ _, Or.inr (Or.inl h)⟩
    · exact ⟨w, List.mem_cons_self _ _, Or.inr (Or.inr h)⟩
    · obtain ⟨v, hv, hv2⟩ := ih h
      exact ⟨v, List.mem_cons_of_mem _ hv, hv2⟩

variable [LinearOrderedField F]

/-- The function `Model::load` changes `directory` and `meshes` only. -/
theorem load_fields (ext : Extern F) (path : String) (self self1 : Model F)
    (c c1 : List Texture) (h : load ext path self c = .ok (self1, c1)) :
    self1.rot_matrix = self.rot_matrix ∧ self1.m2w_matrix = self.m2w_matrix ∧
    self1.world_coord = self.world_coord ∧ self1.scale = self.scale ∧
    self1.attached_lightsources = self.attached_lightsources := by
  unfold load at h
  split at h
  · cases h; simp
  · split at h
    · cases h; simp
    · split at h
      · cases h; simp
      · simp only at h
        split at h
        · cases h
        · cases h; simp

/-- The fold of the sweep over a one-mesh list. -/
theorem sweep_single (m : Mesh F) (bd0 bd : Bounds F)
    (h2 : 2 ≤ m.vertices.length) (hsize : m.vertices.length < 2 ^ 31)
    (hbd : sweep_loop m.vertices (m.vertices.length - 2) 0 bd0 = .ok bd) :
    [m].foldlM sweep_mesh bd0 = .ok bd := by
  rw [List.foldlM_cons]
  have h : sweep_mesh bd0 m = .ok bd := by
    unfold sweep_mesh
    rw [sweep_bound_eq _ h2 (by omega)]
    exact hbd
  rw [h]
  rfl

/-- The sphere stored by `generate_bounding_sphere` in terms of the bounds the sweep ends with. -/
theorem generate_bounding_sphere_of_sweep (sqrt : F → F) (self : Model F) (m : Mesh F) (v : F)
    (bd : Bounds F) (h0 : self.meshes[0]? = some m) (hv : m.vertices[0]? = some v)
    (hfold : self.meshes.foldlM sweep_mesh (⟨v, v, v, v, v, v⟩ : Bounds F) = .ok bd) :
    generate_bounding_sphere sqrt self = .ok
      { self with
        bounding_sphere_radius := glm.length sqrt
          (Vec3.smul (1 / 2) (Vec3.sub (Vec3.smul self.scale ⟨bd.x_max, bd.y_max, bd.z_max⟩)
            (Vec3.smul self.scale ⟨bd.x_min, bd.y_min, bd.z_min⟩))),
        bounding_sphere_center := Vec3.add (Vec3.smul self.scale ⟨bd.x_min, bd.y_min, bd.z_min⟩)
          (Vec3.smul (1 / 2) (Vec3.sub (Vec3.smul self.scale ⟨bd.x_max, bd.y_max, bd.z_max⟩)
            (Vec3.smul self.scale ⟨bd.x_min, bd.y_min, bd.z_min⟩))) } := by
  unfold generate_bounding_sphere
  rw [h0]
  simp only [hv, hfold]

/-- The sweep over the floats of a vertex list made of the corners of `[-1, +1]^3`, all 8 of
them present: every maximum is 1 and every minimum is -1. -/
theorem cube_sweep (vs : List (Vec3 F)) (v : F) (bd : Bounds F)
    (hsize : (flatten3 vs).length < 2 ^ 31)
    (hv : (flatten3 vs)[0]? = some v)
    (hin : ∀ u ∈ vs, (u.x = 1 ∨ u.x = -1) ∧ (u.y = 1 ∨ u.y = -1) ∧ (u.z = 1 ∨ u.z = -1))
    (hall : ∀ (a b c : F), (a = 1 ∨ a = -1) → (b = 1 ∨ b = -1) → (c = 1 ∨ c = -1) →
      (⟨a, b, c⟩ : Vec3 F) ∈ vs)
    (hrun : sweep_loop (flatten3 vs) ((flatten3 vs).length - 2) 0 ⟨v, v, v, v, v, v⟩ = .ok bd) :
    bd = ⟨1, 1, 1, -1, -1, -1⟩ := by
  have hfl : ∀ a ∈ flatten3 vs, a = 1 ∨ a = -1 := by
    intro a ha
    obtain ⟨u, hu, h⟩ := mem_flatten3 vs a ha
    obtain ⟨h1, h2, h3⟩ := hin u hu
    rcases h with rfl | rfl | rfl <;> assumption
  have hvq : v = 1 ∨ v = -1 := hfl v (List.getElem?_mem hv)
  obtain ⟨q1, q2, q3, q4, q5, q6⟩ := sweep_loop_inv (fun a => a = 1 ∨ a = -1) (flatten3 vs) hfl
    _ _ _ _ hrun ⟨hvq, hvq, hvq, hvq, hvq, hvq⟩
  obtain ⟨bd1, hrun1, -, hcover⟩ := sweep_loop_spec (flatten3 vs) ((flatten3 vs).length - 2) 0
    ⟨v, v, v, v, v, v⟩ (by
      by_cases h : 2 ≤ (flatten3 vs).length
      · left; constructor <;> omega
      · right; omega)
  rw [hrun] at hrun1
  cases hrun1
  have key : ∀ (a b c : F), (a = 1 ∨ a = -1) → (b = 1 ∨ b = -1) → (c = 1 ∨ c = -1) →
      a ≤ bd.x_max ∧ b ≤ bd.y_max ∧ c ≤ bd.z_max ∧ bd.x_min ≤ a ∧ bd.y_min ≤ b ∧ bd.z_min ≤ c := by
    intro a b c ha hb hc
    obtain ⟨t, ht⟩ := List.mem_iff_getElem?.1 (hall a b c ha hb hc)
    obtain ⟨e1, e2, e3⟩ := flatten3_getElem? vs t _ ht
    have hlt : t < vs.length := by
      by_contra hcon
      rw [List.getElem?_eq_none (by omega)] at ht
      cases ht
    have hlen := flatten3_length vs
    exact hcover (3 * t) a b c (by omega) (by omega) e1 e2 e3
  obtain ⟨k1, k2, k3, -, -, -⟩ := key 1 1 1 (Or.inl rfl) (Or.inl rfl) (Or.inl rfl)
  obtain ⟨-, -, -, k4, k5, k6⟩ := key (-1) (-1) (-1) (Or.inr rfl) (Or.inr rfl) (Or.inr rfl)
  have hneg : (-1 : F) < 1 := by norm_num
  have e1 : bd.x_max = 1 := by
    rcases q1 with h | h
    · exact h
    · rw [h] at k1; exact absurd k1 (not_le.2 hneg)
  have e2 : bd.y_max = 1 := by
    rcases q2 with h | h
    · exact h
    · rw [h] at k2; exact absurd k2 (not_le.2 hneg)
  have e3 : bd.z_max = 1 := by
    rcases q3 with h | h
    · exact h
    · rw [h] at k3; exact absurd k3 (not_le.2 hneg)
  have e4 : bd.x_min = -1 := by
    rcases q4 with h | h
    · rw [h] at k4; exact absurd k4 (not_le.2 hneg)
    · exact h
  have e5 : bd.y_min = -1 := by
    rcases q5 with h | h
    · rw [h] at k5; exact absurd k5 (not_le.2 hneg)
    · exact h
  have e6 : bd.z_min = -1 := by
    rcases q6 with h | h
    · rw [h] at k6; exact absurd k6 (not_le.2 hneg)
    · exact h
  cases bd
  simp only at e1 e2 e3 e4 e5 e6
  subst e1 e2 e3 e4 e5 e6
  rfl

end BoundingSphere

section Transform

variable {F : Type} [Field F]

/-- The matrix `T(w) * I * S(s)` maps the point `c` to `s c + w`. -/
theorem mul_point_init (w c : Vec3 F) (s : F) :
    glm.mul_point (glm.translate (1 : Mat4 F) w * 1 * glm.scale (1 : Mat4 F) ⟨s, s, s⟩) c
      = Vec3.add (Vec3.smul s c) w := by
  simp only [glm.mul_point, glm.translate, glm.scale, glm.translation, glm.scaling, one_mul,
    mul_one, Vec3.add, Vec3.smul]
  congr 1 <;>
    simp [Matrix.mulVec, Matrix.dotProduct, Fin.sum_univ_four, Matrix.mul_apply]

/-- The matrix `T(w) * I` maps the point `r` to `r + w`. -/
theorem mul_point_translate (w r : Vec3 F) :
    glm.mul_point (glm.translate (1 : Mat4 F) w * 1) r = Vec3.add w r := by
  simp only [glm.mul_point, glm.translate, glm.translation, one_mul, mul_one, Vec3.add]
  congr 1 <;>
    simp [Matrix.mulVec, Matrix.dotProduct, Fin.sum_univ_four, add_comm]

end Transform

section Construction

variable {F : Type} [LinearOrderedField F]

/-- A construction whose load and bounding-sphere derivation complete completes, and
returns the object the derivation returns. -/
theorem construct_of_parts (ext : Extern F) (g : Globals) (this : ModelPtr) (path : String)
    (rot : Mat4 F) (w : Vec3 F) (s : F) (flat : Bool) (self1 self2 : Model F)
    (cache : List Texture)
    (hload : load ext path (Model.init rot w s) g.loaded_textures = .ok (self1, cache))
    (hgen : generate_bounding_sphere ext.sqrt self1 = .ok self2) :
    ∃ g1, construct ext g this path rot w s flat = .ok (self2, g1) := by
  unfold construct
  rw [hload]
  simp only [hgen]
  cases flat
  · exact ⟨_, rfl⟩
  · exact ⟨_, rfl⟩

end Construction

section SphereClaims

/-- C7. Cube scenario: for every scale `s > 0` and world position `w`, a construction with
identity rotation whose load yields a single mesh whose vertex list consists of the 8
corners of `[-1, +1]^3` (all present, any order, repeats allowed; fewer than `2 ^ 31`
floats, the range of the `int` loop counter) completes with
`bounding_sphere_center = (0, 0, 0)`, `bounding_sphere_radius = s * sqrt 3` and
`get_center_point() = w`. -/
theorem cube_scenario (ext : Extern ℝ) (g : Globals) (this : ModelPtr) (path : String)
    (w : Vec3 ℝ) (s : ℝ) (flat : Bool) (self1 : Model ℝ) (cache : List Texture) (m : Mesh ℝ)
    (vs : List (Vec3 ℝ))
    (hsqrt : ext.sqrt = Real.sqrt) (hs : 0 < s)
    (hload : load ext path (Model.init 1 w s) g.loaded_textures = .ok (self1, cache))
    (hmesh : self1.meshes = [m]) (hvs : m.vertices = flatten3 vs)
    (hsize : m.vertices.length < 2 ^ 31)
    (hin : ∀ u ∈ vs, (u.x = 1 ∨ u.x = -1) ∧ (u.y = 1 ∨ u.y = -1) ∧ (u.z = 1 ∨ u.z = -1))
    (hall : ∀ (a b c : ℝ), (a = 1 ∨ a = -1) → (b = 1 ∨ b = -1) → (c = 1 ∨ c = -1) →
      (⟨a, b, c⟩ : Vec3 ℝ) ∈ vs) :
    ∃ self2 g1, construct ext g this path 1 w s flat = .ok (self2, g1) ∧
      self2.bounding_sphere_center = ⟨0, 0, 0⟩ ∧
      self2.bounding_sphere_radius = s * Real.sqrt 3 ∧
      get_center_point self2 = w := by
  obtain ⟨f1, f2, f3, f4, -⟩ := load_fields ext path _ self1 _ cache hload
  have hmem : (⟨1, 1, 1⟩ : Vec3 ℝ) ∈ vs := hall 1 1 1 (Or.inl rfl) (Or.inl rfl) (Or.inl rfl)
  have hlen : 3 * vs.length = m.vertices.length := by rw [hvs, flatten3_length]
  have hpos : 0 < vs.length := List.length_pos_of_mem hmem
  obtain ⟨v, hv⟩ : ∃ v, m.vertices[0]? = some v := ⟨_, List.getElem?_eq_getElem (by omega)⟩
  obtain ⟨bd, hbd, -, -⟩ := sweep_loop_spec m.vertices (m.vertices.length - 2) 0
    ⟨v, v, v, v, v, v⟩ (Or.inl ⟨by omega, by omega⟩)
  have hbd1 : bd = ⟨1, 1, 1, -1, -1, -1⟩ := by
    rw [hvs] at hv hbd hsize
    exact cube_sweep vs v bd hsize hv hin hall hbd
  have hfold : self1.meshes.foldlM sweep_mesh (⟨v, v, v, v, v, v⟩ : Bounds ℝ) = .ok bd := by
    rw [hmesh]
    exact sweep_single m _ bd (by omega) hsize hbd
  have hgen := generate_bounding_sphere_of_sweep ext.sqrt self1 m v bd
    (by rw [hmesh]; rfl) hv hfold
  obtain ⟨g1, hg1⟩ := construct_of_parts ext g this path 1 w s flat self1 _ cache hload hgen
  refine ⟨_, g1, hg1, ?_, ?_, ?_⟩
  · subst hbd1
    simp only [Vec3.add, Vec3.smul, Vec3.sub, f4, Model.init]
    congr 1 <;> ring
  · subst hbd1
    simp only [Vec3.add, Vec3.smul, Vec3.sub, f4, Model.init, glm.length, hsqrt]
    have : s * 1 * (s * 1) + s * 1 * (s * 1) + s * 1 * (s * 1) = s ^ 2 * 3 := by ring
    rw [← Real.sqrt_sq hs.le, ← Real.sqrt_mul (sq_nonneg s), Real.sqrt_sq hs.le]
    congr 1
    ring
  · subst hbd1
    simp only [get_center_point, f2]
    simp only [Model.init, mul_point_init, f4]
    simp only [Vec3.add, Vec3.smul, Vec3.sub]
    cases w
    congr 1 <;> ring

set_option maxRecDepth 100000 in
/-- Witness for C7: the cube at scale 2 and world position `(10, 0, 0)`. -/
theorem cube_scenario_witness :
    ∃ self2 g1, construct (cube_ext ℝ Real.sqrt) ⟨[], [], []⟩ 0 "cube.obj" 1 ⟨10, 0, 0⟩ 2 false
        = .ok (self2, g1) ∧
      self2.bounding_sphere_center = ⟨0, 0, 0⟩ ∧
      self2.bounding_sphere_radius = 2 * Real.sqrt 3 ∧
      get_center_point self2 = ⟨10, 0, 0⟩ := by
  obtain ⟨self1, cache, hload, m, hmesh, hvs⟩ :
      ∃ self1 cache, load (cube_ext ℝ Real.sqrt) "cube.obj" (Model.init 1 ⟨10, 0, 0⟩ 2) []
          = .ok (self1, cache) ∧
        ∃ m, self1.meshes = [m] ∧ m.vertices = flatten3 (cube_corners ℝ) :=
    ⟨_, _, rfl, _, rfl, rfl⟩
  exact cube_scenario (cube_ext ℝ Real.sqrt) ⟨[], [], []⟩ 0 "cube.obj" ⟨10, 0, 0⟩ 2 false
    self1 cache m (cube_corners ℝ) rfl (by norm_num) hload hmesh hvs
    (by rw [hvs, flatten3_length]; simp [cube_corners])
    (by simp [cube_corners])
    (by rintro a b c (rfl | rfl) (rfl | rfl) (rfl | rfl) <;> simp [cube_corners])

set_option maxRecDepth 100000 in
/-- C6, the code at the failing input. The box of the triangle `(0,0,0)`, `(2,0,0)`,
`(0,4,0)` has corners `(0,0,0)` and `(2,4,0)`, so the claim gives center `(1, 2, 0)` and
radius `sqrt 5`; the sweep compares `z_max` with the floats 2 .. 8, among them the `x` of
the second vertex and the `y` of the third, and stores center `(1, 2, 2)` and radius
`sqrt 9`. -/
theorem bounding_sphere_mixes_axes (sqrt : ℚ → ℚ) :
    ∃ self1, generate_bounding_sphere sqrt flat_triangle_model = .ok self1 ∧
      self1.bounding_sphere_center = ⟨1, 2, 2⟩ ∧
      self1.bounding_sphere_radius = sqrt 9 := by
  have hfold : flat_triangle_model.meshes.foldlM sweep_mesh (⟨0, 0, 0, 0, 0, 0⟩ : Bounds ℚ)
      = .ok ⟨2, 4, 4, 0, 0, 0⟩ := by
    rfl
  have h := generate_bounding_sphere_of_sweep sqrt flat_triangle_model flat_triangle 0
    ⟨2, 4, 4, 0, 0, 0⟩ rfl rfl hfold
  refine ⟨_, h, ?_, ?_⟩
  · simp only [Vec3.add, Vec3.smul, Vec3.sub, flat_triangle_model, Model.init]
    norm_num
  · simp only [Vec3.add, Vec3.smul, Vec3.sub, flat_triangle_model, Model.init, glm.length]
    norm_num

/-- C8, the code at the failing input: the importer returns no scene for `missing.obj`,
`load` returns with `meshes` empty, and `generate_bounding_sphere` reads `meshes[0]`. -/
theorem construct_failed_load :
    construct demo_ext ⟨[], [], []⟩ 7 "missing.obj" 1 ⟨0, 0, 0⟩ 1 false
      = .error Fault.out_of_range := by
  rfl

/-- C5, the code at the failing input: a model of scale 2 with identity rotation at the
origin, moved to the origin. The stored matrix has 1 on its diagonal where
`T(world_coord) * rot_matrix * S(scale)` has 2. -/
theorem move_to_drops_scale :
    (move_to (Model.init (1 : Mat4 ℚ) ⟨0, 0, 0⟩ 2) ⟨0, 0, 0⟩ []).1.scale = 2 ∧
    (move_to (Model.init (1 : Mat4 ℚ) ⟨0, 0, 0⟩ 2) ⟨0, 0, 0⟩ []).1.m2w_matrix 0 0 = 1 ∧
    (glm.translate (1 : Mat4 ℚ) ⟨0, 0, 0⟩ * (1 : Mat4 ℚ) * glm.scale (1 : Mat4 ℚ) ⟨2, 2, 2⟩) 0 0
      = 2 := by
  refine ⟨rfl, ?_, ?_⟩
  · simp [move_to, Model.init, glm.translate, glm.translation]
  · simp [glm.translate, glm.translation, glm.scale, glm.scaling, Matrix.mul_apply,
      Fin.sum_univ_four]

end SphereClaims

section Lights

variable {F : Type}

/-- The position last given to a light after more calls were logged. -/
theorem last_position_append (l1 l2 : List (LightCall F)) (L : LightPtr) :
    last_position (l1 ++ l2) L =
      l2.foldl
        (fun acc call =>
          match call with
          | LightCall.move_to l pos => if l = L then some pos else acc
          | _ => acc)
        (last_position l1 L) := by
  unfold last_position
  rw [List.foldl_append]

/-- The position last given to a light after a `move_to` and a position upload were logged. -/
theorem last_position_update (log : List (LightCall F)) (l L : LightPtr) (pos : Vec3 F) :
    last_position (log ++ [LightCall.move_to l pos, LightCall.upload_pos l]) L =
      if l = L then some pos else last_position log L := by
  rw [last_position_append]
  rfl

variable [LinearOrderedField F]

/-- The light loop does not move a light that is not attached. -/
theorem update_skip (M : Mat4 F) (L : LightPtr) (atts : List (light_container F)) :
    ∀ (log : List (LightCall F)), (∀ lc ∈ atts, lc.light ≠ L) →
      last_position
        (atts.foldl
          (fun acc lc =>
            acc ++ [LightCall.move_to lc.light (glm.mul_point M lc.relative_pos),
                    LightCall.upload_pos lc.light])
          log) L = last_position log L := by
  induction atts with
  | nil => intro log _; rfl
  | cons a rest ih =>
    intro log h
    rw [List.foldl_cons, ih _ (fun lc hlc => h lc (List.mem_cons_of_mem _ hlc)),
      last_position_update, if_neg (h a (List.mem_cons_self _ _))]

/-- The light loop leaves a light at the position of its last attachment. -/
theorem update_last (M : Mat4 F) (atts : List (light_container F)) :
    ∀ (log : List (LightCall F)) (i : Nat) (lc : light_container F), atts[i]? = some lc →
      (∀ (j : Nat) (lc2 : light_container F), i < j → atts[j]? = some lc2 →
        lc2.light ≠ lc.light) →
      last_position
        (atts.foldl
          (fun acc lc =>
            acc ++ [LightCall.move_to lc.light (glm.mul_point M lc.relative_pos),
                    LightCall.upload_pos lc.light])
          log) lc.light = some (glm.mul_point M lc.relative_pos) := by
  induction atts with
  | nil => intro log i lc h; simp at h
  | cons a rest ih =>
    intro log i lc h hlater
    rw [List.foldl_cons]
    cases i with
    | zero =>
      simp only [List.getElem?_cons_zero, Option.some.injEq] at h
      subst h
      rw [update_skip M a.light rest _ ?_, last_position_update, if_pos rfl]
      intro lc2 hlc2
      obtain ⟨j, hj⟩ := List.mem_iff_getElem?.1 hlc2
      exact hlater (j + 1) lc2 (Nat.succ_pos j) (by simpa using hj)
    | succ k =>
      simp only [List.getElem?_cons_succ] at h
      apply ih _ k lc h
      intro j lc2 hj hlc2
      exact hlater (j + 1) lc2 (by omega) (by simpa using hlc2)

/-- C4 (as amended). After `move_to(p)` on a model with any rotation and any attachments,
`world_coord` is `p`, the stored matrix is `T(p) * rot_matrix`, and for every attachment
`(L, r)` that is not followed by a later attachment of the same light `L` the position last
given to `L` is the stored matrix applied to `(r, 1)`, restricted to xyz. -/
theorem move_to_lights (self : Model F) (p : Vec3 F) (log : List (LightCall F)) :
    (move_to self p log).1.world_coord = p ∧
    (move_to self p log).1.m2w_matrix = glm.translate (1 : Mat4 F) p * self.rot_matrix ∧
    ∀ (i : Nat) (lc : light_container F), self.attached_lightsources[i]? = some lc →
      (∀ (j : Nat) (lc2 : light_container F), i < j →
        self.attached_lightsources[j]? = some lc2 → lc2.light ≠ lc.light) →
      last_position (move_to self p log).2 lc.light
        = some (glm.mul_point (move_to self p log).1.m2w_matrix lc.relative_pos) := by
  refine ⟨rfl, rfl, ?_⟩
  intro i lc hi hlater
  exact update_last _ self.attached_lightsources log i lc hi hlater

/-- Witness for C4: in `two_light_model` the second attachment of light 5 is the last one. -/
theorem move_to_lights_witness :
    last_position (move_to two_light_model ⟨0, 0, 0⟩ []).2 5
      = some (glm.mul_point (move_to two_light_model ⟨0, 0, 0⟩ []).1.m2w_matrix ⟨2, 0, 0⟩) :=
  (move_to_lights two_light_model ⟨0, 0, 0⟩ []).2.2 1 ⟨5, ⟨2, 0, 0⟩⟩ rfl
    (fun j lc2 hj h => by
      have : two_light_model.attached_lightsources.length = 2 := rfl
      rw [List.getElem?_eq_none (by omega)] at h
      cases h)

/-- C4, counterexample. Light 5 is attached at `(1, 0, 0)` and again at `(2, 0, 0)`; after
`move_to((0, 0, 0))` the position last given to it is `(2, 0, 0)`, which is not the stored
matrix applied to the first attachment's offset, `(1, 0, 0)`. -/
theorem move_to_repeated_light_counterexample :
    two_light_model.attached_lightsources = [⟨5, ⟨1, 0, 0⟩⟩, ⟨5, ⟨2, 0, 0⟩⟩] ∧
    last_position (move_to two_light_model ⟨0, 0, 0⟩ []).2 5 = some ⟨2, 0, 0⟩ ∧
    glm.mul_point (move_to two_light_model ⟨0, 0, 0⟩ []).1.m2w_matrix ⟨1, 0, 0⟩ = ⟨1, 0, 0⟩ ∧
    last_position (move_to two_light_model ⟨0, 0, 0⟩ []).2 5
      ≠ some (glm.mul_point (move_to two_light_model ⟨0, 0, 0⟩ []).1.m2w_matrix ⟨1, 0, 0⟩) := by
  have hm : (move_to two_light_model ⟨0, 0, 0⟩ []).1.m2w_matrix
      = glm.translate (1 : Mat4 ℚ) ⟨0, 0, 0⟩ * 1 := rfl
  have h1 : glm.mul_point (move_to two_light_model ⟨0, 0, 0⟩ []).1.m2w_matrix ⟨1, 0, 0⟩
      = (⟨1, 0, 0⟩ : Vec3 ℚ) := by
    rw [hm, mul_point_translate]
    simp [Vec3.add]
  have h2 : last_position (move_to two_light_model ⟨0, 0, 0⟩ []).2 5
      = some (⟨2, 0, 0⟩ : Vec3 ℚ) := by
    have h : last_position (move_to two_light_model ⟨0, 0, 0⟩ []).2 5
        = some (glm.mul_point (move_to two_light_model ⟨0, 0, 0⟩ []).1.m2w_matrix ⟨2, 0, 0⟩) :=
      update_last (move_to two_light_model ⟨0, 0, 0⟩ []).1.m2w_matrix
        two_light_model.attached_lightsources [] 1 ⟨5, ⟨2, 0, 0⟩⟩ rfl
        (fun j lc2 hj h => by
          have : two_light_model.attached_lightsources.length = 2 := rfl
          rw [List.getElem?_eq_none (by omega)] at h
          cases h)
    rw [h, hm, mul_point_translate]
    simp [Vec3.add]
  refine ⟨rfl, h2, h1, ?_⟩
  rw [h1, h2]
  intro h
  simp only [Option.some.injEq, Vec3.mk.injEq] at h
  norm_num at h

end Lights

section Movement

variable {F : Type} [LinearOrderedField F]

/-- The function `Model::generate_bounding_sphere` changes the sphere members only. -/
theorem generate_fields (sqrt : F → F) (self self1 : Model F)
    (h : generate_bounding_sphere sqrt self = .ok self1) :
    self1.rot_matrix = self.rot_matrix ∧ self1.m2w_matrix = self.m2w_matrix ∧
    self1.world_coord = self.world_coord ∧ self1.scale = self.scale ∧
    self1.attached_lightsources = self.attached_lightsources ∧
    self1.meshes = self.meshes ∧ self1.directory = self.directory := by
  unfold generate_bounding_sphere at h
  split at h
  · cases h
  · split at h
    · cases h
    · split at h
      · cases h
      · cases h
        simp

/-- The transform members and the attachments of a freshly constructed model. -/
theorem construct_fields (ext : Extern F) (g g1 : Globals) (this : ModelPtr) (path : String)
    (rot : Mat4 F) (w : Vec3 F) (s : F) (flat : Bool) (self : Model F)
    (h : construct ext g this path rot w s flat = .ok (self, g1)) :
    self.rot_matrix = rot ∧
    self.m2w_matrix = glm.translate (1 : Mat4 F) w * rot * glm.scale (1 : Mat4 F) ⟨s, s, s⟩ ∧
    self.world_coord = w ∧ self.scale = s ∧ self.attached_lightsources = [] := by
  unfold construct at h
  split at h
  · cases h
  · rename_i self1 cache hload
    obtain ⟨a1, a2, a3, a4, a5⟩ := load_fields ext path _ self1 _ cache hload
    split at h
    · cases h
    · rename_i self2 hgen
      obtain ⟨b1, b2, b3, b4, b5, -, -⟩ := generate_fields ext.sqrt self1 self2 hgen
      have hs : self = self2 := by
        cases flat <;> simp at h <;> exact h.1.symm
      subst hs
      refine ⟨b1.trans a1, b2.trans a2, b3.trans a3, b4.trans a4, b5.trans a5⟩

/-- C12. For every model constructed with identity rotation and scale 1 at any world
position, every light `L`, offset `r` and target `p`: after `attach_light(L, r)` followed by
`move_to(p)` the position last given to `L` is `p + r`. -/
theorem attached_light_tracks (ext : Extern F) (g g1 : Globals) (this : ModelPtr)
    (path : String) (w : Vec3 F) (flat : Bool) (self : Model F) (L : LightPtr) (r p : Vec3 F)
    (log : List (LightCall F))
    (hc : construct ext g this path 1 w 1 flat = .ok (self, g1)) :
    last_position (move_to (attach_light self L r log).1 p (attach_light self L r log).2).2 L
      = some (Vec3.add p r) := by
  obtain ⟨h1, -, -, -, h5⟩ := construct_fields ext g g1 this path 1 w 1 flat self hc
  have hatt : (attach_light self L r log).1.attached_lightsources = [⟨L, r⟩] := by
    simp [attach_light, h5]
  have hrot : (attach_light self L r log).1.rot_matrix = 1 := h1
  have hm : (move_to (attach_light self L r log).1 p (attach_light self L r log).2).1.m2w_matrix
      = glm.translate (1 : Mat4 F) p * 1 := by
    simp only [move_to, hrot]
  have h : last_position
      (move_to (attach_light self L r log).1 p (attach_light self L r log).2).2 L
      = some (glm.mul_point
          (move_to (attach_light self L r log).1 p (attach_light self L r log).2).1.m2w_matrix
          r) :=
    update_last
      (move_to (attach_light self L r log).1 p (attach_light self L r log).2).1.m2w_matrix
      (attach_light self L r log).1.attached_lightsources (attach_light self L r log).2 0
      ⟨L, r⟩ (by rw [hatt]; rfl)
      (fun j lc2 hj h => by
        rw [hatt, List.getElem?_eq_none (by simp; omega)] at h
        cases h)
  rw [h, hm, mul_point_translate]

/-- C14. Over exact arithmetic `move(delta)` followed by `move(-delta)` restores
`world_coord`, and `move(delta)` gives the same model state and light calls as
`move_to(world_coord + delta)`. -/
theorem move_round_trip (self : Model F) (delta : Vec3 F) (log : List (LightCall F)) :
    (move (move self delta log).1 (Vec3.neg delta) (move self delta log).2).1.world_coord
      = self.world_coord ∧
    move self delta log = move_to self (Vec3.add self.world_coord delta) log := by
  refine ⟨?_, rfl⟩
  simp only [move, move_to, Vec3.add, Vec3.neg]
  cases hw : self.world_coord
  simp

set_option maxRecDepth 100000 in
/-- Witness for C12: a model constructed at the origin, light 3 attached at `(1, 0, 0)`,
moved to `(5, 5, 5)`: the light ends at `(6, 5, 5)`. -/
theorem attached_light_tracks_witness :
    ∃ self g1, construct demo_ext ⟨[], [], []⟩ 7 "assets/tri.obj" 1 ⟨0, 0, 0⟩ 1 false
        = .ok (self, g1) ∧
      last_position (move_to (attach_light self 3 ⟨1, 0, 0⟩ []).1 ⟨5, 5, 5⟩
        (attach_light self 3 ⟨1, 0, 0⟩ []).2).2 3 = some ⟨6, 5, 5⟩ := by
  obtain ⟨self, g1, hc⟩ : ∃ self g1,
      construct demo_ext ⟨[], [], []⟩ 7 "assets/tri.obj" 1 ⟨0, 0, 0⟩ 1 false = .ok (self, g1) :=
    ⟨_, _, rfl⟩
  refine ⟨self, g1, hc, ?_⟩
  rw [attached_light_tracks demo_ext ⟨[], [], []⟩ g1 7 "assets/tri.obj" ⟨0, 0, 0⟩ false self 3
    ⟨1, 0, 0⟩ ⟨5, 5, 5⟩ [] hc]
  simp only [Vec3.add]
  norm_num

end Movement

section TextureClaims

variable {F : Type}

/-- C2 (as amended). For every cache state, file name `f` whose image decodes and base paths
`b1`, `b2`: resolving `f` as a texture slot of `load_mesh` does (`load_texture(f, b1)`, then
`path = f` written on the returned object) and then calling `load_texture(f, b2)` returns
the same `Texture` object both times, and the second call leaves `loaded_textures` as it
is; and when `f` is already the path of a cached entry, two `load_texture` calls in direct
succession return that entry and add nothing. -/
theorem load_texture_idempotent (ext : Extern F) (cache : List Texture) (f b1 b2 : String)
    (ty : TextureType) (mt : List TexturePtr)
    (hdec : ext.IMG_Load (b1 ++ "/" ++ f) ≠ none) :
    (∃ t c1, load_mesh_texture ext b1 ty (mt, cache) f = .ok (mt ++ [t], c1) ∧
      load_texture ext f b2 c1 = .ok (t, c1)) ∧
    (f ∈ paths cache →
      load_texture ext f b1 cache = .ok (lookup cache f, cache) ∧
      load_texture ext f b2 cache = .ok (lookup cache f, cache)) := by
  have hit : ∀ (b : String) (c : List Texture), f ∈ paths c →
      load_texture ext f b c = .ok (lookup c f, c) := by
    intro b c hm
    have hlt : List.findIdx (fun t => decide (t.path = f)) c < c.length :=
      (lookup_lt_iff c f).2 hm
    unfold load_texture
    simp only
    rw [if_pos hlt]
    rfl
  refine ⟨?_, fun hm => ⟨hit b1 cache hm, hit b2 cache hm⟩⟩
  obtain ⟨⟨mt1, c1⟩, hstep⟩ := load_mesh_texture_total ext b1 ty f mt cache (Or.inr hdec)
  obtain ⟨h1, h2, -⟩ := load_mesh_texture_spec ext b1 ty f mt mt1 cache c1 hstep
  refine ⟨lookup c1 f, c1, ?_, hit b2 c1 h2⟩
  rw [hstep, h1]

/-- Witness for C2 on the empty cache. -/
theorem load_texture_idempotent_witness :
    ∃ t c1, load_mesh_texture demo_ext "assets" TextureType.DIFFUSE ([], []) "brick.png"
        = .ok ([] ++ [t], c1) ∧
      load_texture demo_ext "brick.png" "elsewhere" c1 = .ok (t, c1) :=
  (load_texture_idempotent demo_ext [] "brick.png" "assets" "elsewhere" TextureType.DIFFUSE []
    (by decide)).1

/-- C2, counterexample. On the empty cache two `load_texture` calls for `brick.png` in
direct succession return two different objects (positions 0 and 1) and each adds an entry:
the new object's path is empty until the caller writes it. -/
theorem load_texture_twice_counterexample :
    load_texture demo_ext "brick.png" "assets" [] = .ok (0, [⟨TextureType.DIFFUSE, ""⟩]) ∧
    load_texture demo_ext "brick.png" "assets" [⟨TextureType.DIFFUSE, ""⟩]
      = .ok (1, [⟨TextureType.DIFFUSE, ""⟩, ⟨TextureType.DIFFUSE, ""⟩]) ∧
    ¬ ∃ t c1, load_texture demo_ext "brick.png" "assets" [] = .ok (t, c1) ∧
      load_texture demo_ext "brick.png" "assets" c1 = .ok (t, c1) := by
  refine ⟨rfl, rfl, ?_⟩
  rintro ⟨t, c1, h1, h2⟩
  have e1 : load_texture demo_ext "brick.png" "assets" []
      = .ok (0, [⟨TextureType.DIFFUSE, ""⟩]) := rfl
  rw [e1] at h1
  simp only [Except.ok.injEq, Prod.mk.injEq] at h1
  obtain ⟨rfl, rfl⟩ := h1
  have e2 : load_texture demo_ext "brick.png" "assets" [⟨TextureType.DIFFUSE, ""⟩]
      = .ok (1, [⟨TextureType.DIFFUSE, ""⟩, ⟨TextureType.DIFFUSE, ""⟩]) := rfl
  rw [e2] at h2
  simp at h2

end TextureClaims

section ConversionClaims

variable {F : Type} [LinearOrderedField F]

/-- A completed conversion puts every slot name of its material in the cache. -/
theorem load_mesh_job (ext : Extern F) (j : MeshJob F) (c c1 : List Texture) (m : Mesh F)
    (h : load_mesh ext j.directory j.ai_mesh j.scene c = .ok (m, c1)) :
    m.textures = (job_names j).map (lookup c1) ∧ paths c <+: paths c1 ∧
    (∀ p, p ∈ paths c1 ↔ p ∈ paths c ∨ p ∈ job_names j) ∧
    ((paths c).Nodup → (paths c1).Nodup) := by
  obtain ⟨mg, material, -, hmat, hm, h2, h3, h4⟩ := load_mesh_spec ext _ _ _ _ _ _ h
  have hn : job_names j = material.diffuse ++ material.specular := by
    unfold job_names; rw [hmat]
  rw [hn]
  refine ⟨?_, h2, h3, h4⟩
  rw [hm]

/-- A completed sequence of conversions: every mesh's texture list holds, slot by slot, the
position in the final cache of the slot's file name; the cache only grows, by names of slots. -/
theorem load_mesh_all_spec (ext : Extern F) (jobs : List (MeshJob F)) :
    ∀ (c : List Texture) (meshes : List (Mesh F)) (c1 : List Texture),
      load_mesh_all ext c jobs = .ok (meshes, c1) →
      (∀ (k : Nat) (j : MeshJob F) (m : Mesh F), jobs[k]? = some j → meshes[k]? = some m →
        m.textures = (job_names j).map (lookup c1)) ∧
      meshes.length = jobs.length ∧
      paths c <+: paths c1 ∧
      (∀ p, p ∈ paths c1 ↔ p ∈ paths c ∨ ∃ j ∈ jobs, p ∈ job_names j) ∧
      ((paths c).Nodup → (paths c1).Nodup) := by
  induction jobs with
  | nil =>
    intro c meshes c1 h
    simp only [load_mesh_all, Except.ok.injEq, Prod.mk.injEq] at h
    obtain ⟨rfl, rfl⟩ := h
    simp
  | cons j rest ih =>
    intro c meshes c1 h
    simp only [load_mesh_all] at h
    split at h
    · cases h
    · rename_i m c0 hj
      split at h
      · cases h
      · rename_i ms c2 hrest
        simp only [Except.ok.injEq, Prod.mk.injEq] at h
        obtain ⟨rfl, rfl⟩ := h
        obtain ⟨a1, a2, a3, a4⟩ := load_mesh_job ext j c c0 m hj
        obtain ⟨b1, b2, b3, b4, b5⟩ := ih c0 ms c2 hrest
        refine ⟨?_, by simp [b2], a2.trans b3, ?_, fun hn => b5 (a4 hn)⟩
        · intro k j1 m1 hk hm
          cases k with
          | zero =>
            simp only [List.getElem?_cons_zero, Option.some.injEq] at hk hm
            subst hk; subst hm
            rw [a1]
            apply List.map_congr_left
            intro f hf
            exact (lookup_stable c0 c2 f b3 ((a3 f).2 (Or.inr hf))).symm
          | succ k =>
            simp only [List.getElem?_cons_succ] at hk hm
            exact b1 k j1 m1 hk hm
        · intro p
          rw [b4 p, a3 p]
          simp only [List.mem_cons, exists_eq_or_imp]
          tauto

/-- C3. Starting from an empty texture cache, after any completed sequence of `load_mesh`
conversions: no two entries of `loaded_textures` have the same path; two texture-list
entries resolved from the same file name are the same `Texture` object, a cached one whose
path is that name; and if all slots name one file, `loaded_textures` has size 1. -/
theorem texture_dedup (ext : Extern F) (jobs : List (MeshJob F)) (meshes : List (Mesh F))
    (cache : List Texture) (hrun : load_mesh_all ext [] jobs = .ok (meshes, cache)) :
    (paths cache).Nodup ∧
    (∀ (a b i j : Nat) (ja jb : MeshJob F) (ma mb : Mesh F) (f : String),
      jobs[a]? = some ja → jobs[b]? = some jb → meshes[a]? = some ma → meshes[b]? = some mb →
      (job_names ja)[i]? = some f → (job_names jb)[j]? = some f →
      ∃ t, ma.textures[i]? = some t ∧ mb.textures[j]? = some t ∧
        (paths cache)[t]? = some f) ∧
    (∀ f, (∃ j ∈ jobs, f ∈ job_names j) → (∀ j ∈ jobs, ∀ g ∈ job_names j, g = f) →
      cache.length = 1) := by
  obtain ⟨h1, -, -, h4, h5⟩ := load_mesh_all_spec ext jobs [] meshes cache hrun
  have hnodup : (paths cache).Nodup := h5 (by simp [paths])
  refine ⟨hnodup, ?_, ?_⟩
  · intro a b i j ja jb ma mb f hja hjb hma hmb hi hj
    refine ⟨lookup cache f, ?_, ?_, ?_⟩
    · rw [h1 a ja ma hja hma, List.getElem?_map, hi]; rfl
    · rw [h1 b jb mb hjb hmb, List.getElem?_map, hj]; rfl
    · have hmem : f ∈ paths cache :=
        (h4 f).2 (Or.inr ⟨ja, List.getElem?_mem hja, List.getElem?_mem hi⟩)
      have hlt : lookup cache f < (paths cache).length := by
        have := (lookup_lt_iff cache f).2 hmem
        simpa [paths] using this
      rw [List.getElem?_eq_getElem hlt]
      have := @List.findIdx_getElem _ (fun p => decide (p = f)) (paths cache)
        (by rw [← lookup_eq_paths]; exact hlt)
      simp only [decide_eq_true_eq] at this
      simp only [lookup_eq_paths]
      exact congrArg some this
  · intro f hex hall
    have hmem : f ∈ paths cache := (h4 f).2 (Or.inr hex)
    have hall2 : ∀ p ∈ paths cache, p = f := by
      intro p hp
      rcases (h4 p).1 hp with h | ⟨j, hj, hpj⟩
      · simp [paths] at h
      · exact hall j hj p hpj
    have hlen : (paths cache).length = 1 := by
      match hpc : paths cache with
      | [] => rw [hpc] at hmem; simp at hmem
      | [_] => rfl
      | x :: y :: l =>
        rw [hpc] at hall2 hnodup
        have hx := hall2 x (by simp)
        have hy := hall2 y (by simp)
        rw [hx, hy] at hnodup
        simp at hnodup
    simpa [paths] using hlen

/-- Witness for C3: two materials that both reference `brick.png`. -/
theorem texture_dedup_witness :
    ∃ meshes cache, load_mesh_all demo_ext [] demo_jobs = .ok (meshes, cache) ∧
      cache.length = 1 := by
  have hrun : load_mesh_all demo_ext [] demo_jobs
      = .ok ([{ (new_Mesh : Mesh ℚ) with
                index_count := 3, vertex_count := 3,
                vertices := [0, 0, 0, 1, 0, 0, 0, 1, 0], normals := [0, 0, 1, 0, 0, 1, 0, 0, 1],
                tex_coords := [0, 0, 0, 0, 0, 0], indices := [0, 1, 2],
                shininess := 32 / 4, textures := [0] },
              { (new_Mesh : Mesh ℚ) with
                index_count := 3, vertex_count := 3,
                vertices := [0, 0, 0, 1, 0, 0, 0, 1, 0], normals := [0, 0, 1, 0, 0, 1, 0, 0, 1],
                tex_coords := [0, 0, 0, 0, 0, 0], indices := [0, 1, 2],
                shininess := 8 / 4, textures := [0] }],
             [⟨TextureType.DIFFUSE, "brick.png"⟩]) := by
    rfl
  refine ⟨_, _, hrun, (texture_dedup demo_ext demo_jobs _ _ hrun).2.2 "brick.png" ?_ ?_⟩
  · exact ⟨⟨"assets", demo_mesh, demo_scene_two⟩, by simp [demo_jobs], by
      simp [job_names, demo_scene_two, demo_mesh]⟩
  · intro j hj g hg
    simp only [demo_jobs, List.mem_cons, List.mem_singleton, List.not_mem_nil, or_false] at hj
    rcases hj with rfl | rfl <;>
      simpa [job_names, demo_scene_two, demo_mesh, demo_mesh_b] using hg

/-- C9, the code at the failing input: the material's first slot names a file that does not
decode; `load_mesh` dereferences the null surface instead of skipping the slot. -/
theorem load_mesh_decode_failure :
    load_mesh demo_ext "assets" demo_mesh demo_scene_missing [] = .error Fault.null_deref := by
  rfl

/-- A conversion completes when the imported arrays are long enough, the material index is
in range and every slot's file is cached or decodes. -/
theorem load_mesh_total (ext : Extern F) (d : String) (ai : aiMesh F) (scene : aiScene F)
    (c : List Texture) (material : aiMaterial F)
    (hn : ai.mVertices.length ≤ ai.mNormals.length)
    (huv : ∀ ch, ai.mTextureCoords0 = some ch → ai.mVertices.length ≤ ch.length)
    (hmat : scene.mMaterials[ai.mMaterialIndex]? = some material)
    (hdec : ∀ f ∈ material.diffuse ++ material.specular,
      f ∈ paths c ∨ ext.IMG_Load (d ++ "/" ++ f) ≠ none) :
    ∃ m c1, load_mesh ext d ai scene c = .ok (m, c1) := by
  obtain ⟨mg, hg⟩ := load_mesh_geometry_total ai hn huv
  obtain ⟨⟨mt1, ca⟩, h1⟩ := load_textures_total ext d TextureType.DIFFUSE material.diffuse
    mg.textures c (fun f hf => hdec f (List.mem_append_left _ hf))
  obtain ⟨-, hpre, -, -⟩ := load_textures_spec ext d _ _ _ _ _ _ h1
  obtain ⟨⟨mt2, cb⟩, h2⟩ := load_textures_total ext d TextureType.SPECULAR material.specular
    mt1 ca (fun f hf => by
      rcases hdec f (List.mem_append_right _ hf) with h | h
      · exact Or.inl (hpre.subset h)
      · exact Or.inr h)
  unfold load_mesh
  rw [hg]
  simp only [hmat, h1, h2]
  exact ⟨_, _, rfl⟩

/-- C10. The Mesh returned by `load_mesh` for an imported mesh with `n` vertices (with or
without UV channel 0) has `vertex_count = n`, `3 n` floats in `vertices`, `3 n` in `normals`
and `2 n` in `tex_coords`, and the floats `3 i .. 3 i + 2` of `vertices` are the `x`, `y`, `z`
of imported vertex `i`; and `load_mesh` does return a Mesh when the imported arrays have `n`
entries, the material exists and its texture files are cached or decode. -/
theorem load_mesh_vertex_arrays (ext : Extern F) (d : String) (ai : aiMesh F) (scene : aiScene F)
    (c : List Texture) (n : Nat) (hn : ai.mVertices.length = n) :
    (∀ (m : Mesh F) (c1 : List Texture), load_mesh ext d ai scene c = .ok (m, c1) →
      m.vertex_count = n ∧ m.vertices.length = 3 * n ∧ m.normals.length = 3 * n ∧
      m.tex_coords.length = 2 * n ∧
      ∀ (i : Nat) (v : Vec3 F), ai.mVertices[i]? = some v →
        m.vertices[3 * i]? = some v.x ∧ m.vertices[3 * i + 1]? = some v.y ∧
        m.vertices[3 * i + 2]? = some v.z) ∧
    (ai.mNormals.length = n → (∀ ch, ai.mTextureCoords0 = some ch → ch.length = n) →
      ∀ material, scene.mMaterials[ai.mMaterialIndex]? = some material →
      (∀ f ∈ material.diffuse ++ material.specular,
        f ∈ paths c ∨ ext.IMG_Load (d ++ "/" ++ f) ≠ none) →
      ∃ m c1, load_mesh ext d ai scene c = .ok (m, c1)) := by
  subst hn
  constructor
  · intro m c1 h
    obtain ⟨mg, material, hg, -, hm, -⟩ := load_mesh_spec ext d ai scene c c1 m h
    obtain ⟨g1, -, g3, -, g5, g6, -⟩ := load_mesh_geometry_spec ai mg hg
    subst hm
    refine ⟨g1, ?_, g5, g6, ?_⟩
    · simp only [g3, flatten3_length]
    · intro i v hv
      simp only [g3]
      exact flatten3_getElem? ai.mVertices i v hv
  · intro hnorm huv material hmat hdec
    exact load_mesh_total ext d ai scene c material (by omega)
      (fun ch hch => by have := huv ch hch; omega) hmat hdec

/-- Witness for C10: the triangle of `demo_scene`. -/
theorem load_mesh_vertex_arrays_witness :
    ∃ m c1, load_mesh demo_ext "assets" demo_mesh demo_scene [] = .ok (m, c1) ∧
      m.vertex_count = 3 ∧ m.vertices.length = 3 * 3 ∧ m.normals.length = 3 * 3 ∧
      m.tex_coords.length = 2 * 3 := by
  have h := load_mesh_vertex_arrays demo_ext "assets" demo_mesh demo_scene [] 3 rfl
  obtain ⟨m, c1, hm⟩ := h.2 rfl (fun ch hch => by simp [demo_mesh] at hch)
    ⟨32, ["brick.png"], []⟩ rfl (fun f hf => by
      simp only [List.append_nil, List.mem_singleton] at hf
      subst hf
      exact Or.inr (by decide))
  obtain ⟨a1, a2, a3, a4, -⟩ := h.1 m c1 hm
  exact ⟨m, c1, hm, a1, a2, a3, a4⟩

end ConversionClaims

section MeshClaims

variable {F : Type}

/-- A cached name is the path of the texture at its position. -/
theorem paths_lookup (c : List Texture) (f : String) (h : f ∈ paths c) :
    (paths c)[lookup c f]? = some f := by
  have hlt : lookup c f < (paths c).length := by
    have := (lookup_lt_iff c f).2 h
    simpa [paths] using this
  rw [List.getElem?_eq_getElem hlt]
  have := @List.findIdx_getElem _ (fun p => decide (p = f)) (paths c)
    (by rw [← lookup_eq_paths]; exact hlt)
  simp only [decide_eq_true_eq] at this
  simp only [lookup_eq_paths]
  exact congrArg some this

/-- The number of indices the face loop appends. -/
theorem face_loop_length (faces : List aiFace) :
    ∀ (init : List Nat),
      (faces.foldl (fun acc face => acc ++ face.mIndices) init).length
        = init.length + (faces.map (fun face => face.mIndices.length)).sum := by
  induction faces with
  | nil => intro init; simp
  | cons f rest ih =>
    intro init
    rw [List.foldl_cons, ih]
    simp only [List.length_append, List.map_cons, List.sum_cons]
    omega

/-- The number of indices of a list of triangles. -/
theorem triangles_sum (faces : List aiFace) (h : ∀ f ∈ faces, f.mIndices.length = 3) :
    (faces.map (fun face => face.mIndices.length)).sum = 3 * faces.length := by
  induction faces with
  | nil => rfl
  | cons f rest ih =>
    simp only [List.map_cons, List.sum_cons, List.length_cons]
    rw [ih (fun g hg => h g (List.mem_cons_of_mem _ hg)), h f (List.mem_cons_self _ _)]
    ring

variable [LinearOrderedField F]

/-- C11 (as amended). For every Mesh that `load_mesh` returns, `index_count` is
`3 * (number of faces)` reduced modulo `2 ^ 32` and `indices.length` is the sum of the faces'
index counts; when every face has exactly 3 indices and `3 * (number of faces) < 2 ^ 32`,
`indices.length = index_count = 3 * (number of faces)`. -/
theorem load_mesh_index_arrays (ext : Extern F) (d : String) (ai : aiMesh F) (scene : aiScene F)
    (c c1 : List Texture) (m : Mesh F) (h : load_mesh ext d ai scene c = .ok (m, c1)) :
    m.index_count = (3 * ai.mFaces.length) % 2 ^ 32 ∧
    m.indices.length = (ai.mFaces.map (fun face => face.mIndices.length)).sum ∧
    ((∀ f ∈ ai.mFaces, f.mIndices.length = 3) → 3 * ai.mFaces.length < 2 ^ 32 →
      m.indices.length = m.index_count ∧ m.index_count = 3 * ai.mFaces.length) := by
  obtain ⟨mg, material, hg, -, hm, -⟩ := load_mesh_spec ext d ai scene c c1 m h
  obtain ⟨-, g2, -, -, -, -, -, g8, -⟩ := load_mesh_geometry_spec ai mg hg
  subst hm
  have hlen : mg.indices.length = (ai.mFaces.map (fun face => face.mIndices.length)).sum := by
    rw [g8, face_loop_length]
    simp
  refine ⟨g2, hlen, ?_⟩
  intro htri hsmall
  have hmod : (3 * ai.mFaces.length) % 2 ^ 32 = 3 * ai.mFaces.length := Nat.mod_eq_of_lt hsmall
  refine ⟨?_, g2.trans hmod⟩
  show mg.indices.length = mg.index_count
  rw [hlen, g2, hmod, triangles_sum _ htri]

set_option maxRecDepth 100000 in
/-- Witness for C11: the triangle of `demo_scene`. -/
theorem load_mesh_index_arrays_witness :
    ∃ m c1, load_mesh demo_ext "assets" demo_mesh demo_scene [] = .ok (m, c1) ∧
      m.indices.length = m.index_count ∧ m.index_count = 3 * 1 := by
  obtain ⟨m, c1, h⟩ : ∃ m c1, load_mesh demo_ext "assets" demo_mesh demo_scene [] = .ok (m, c1) :=
    ⟨_, _, rfl⟩
  have h3 := (load_mesh_index_arrays demo_ext "assets" demo_mesh demo_scene [] c1 m h).2.2
    (by simp [demo_mesh]) (by simp [demo_mesh])
  exact ⟨m, c1, h, h3.1, h3.2⟩

set_option maxRecDepth 100000 in
/-- C11, counterexample. A mesh with one line face (2 indices) converts to a Mesh with
`index_count = 3` and 2 indices; and for a mesh with 1431655766 triangles the `unsigned int`
product `3 * mNumFaces` wraps, so `index_count = 2`. -/
theorem load_mesh_line_face_counterexample :
    (∃ m c1, load_mesh demo_ext "assets" line_mesh line_scene [] = .ok (m, c1) ∧
      m.index_count = 3 ∧ m.indices.length = 2) ∧
    (∃ m, load_mesh_geometry (faces_only_mesh 1431655766) = .ok m ∧ m.index_count = 2 ∧
      3 * (faces_only_mesh 1431655766).mFaces.length = 4294967298) := by
  constructor
  · exact ⟨_, _, rfl, rfl, rfl⟩
  · obtain ⟨m, hm⟩ := load_mesh_geometry_total (faces_only_mesh 1431655766) (le_refl _)
      (fun ch hch => by simp only [faces_only_mesh] at hch; cases hch)
    have h2 := (load_mesh_geometry_spec (faces_only_mesh 1431655766) m hm).2.1
    have hlen : (faces_only_mesh 1431655766).mFaces.length = 1431655766 := by
      simp only [faces_only_mesh, List.length_replicate]
    refine ⟨m, hm, ?_, ?_⟩
    · rw [h2, hlen]
      norm_num
    · rw [hlen]

/-- C13. For an imported mesh whose material has diffuse file names `d_0 .. d_(k-1)` and
specular file names `s_0 .. s_(m-1)`, the texture list of the Mesh returned by `load_mesh`
has length `k + m`; its entry `j < k` is the cached Texture whose path is `d_j`, its entry
`k + j` the cached Texture whose path is `s_j`; and `load_mesh` returns a Mesh when the
imported arrays are complete and every file is cached or decodes. -/
theorem load_mesh_texture_order (ext : Extern F) (d : String) (ai : aiMesh F)
    (scene : aiScene F) (c : List Texture) (material : aiMaterial F)
    (hmat : scene.mMaterials[ai.mMaterialIndex]? = some material) :
    (∀ (m : Mesh F) (c1 : List Texture), load_mesh ext d ai scene c = .ok (m, c1) →
      m.textures.length = material.diffuse.length + material.specular.length ∧
      (∀ (j : Nat) (f : String), material.diffuse[j]? = some f →
        m.textures[j]? = some (lookup c1 f) ∧ (paths c1)[lookup c1 f]? = some f) ∧
      (∀ (j : Nat) (f : String), material.specular[j]? = some f →
        m.textures[material.diffuse.length + j]? = some (lookup c1 f) ∧
        (paths c1)[lookup c1 f]? = some f)) ∧
    (ai.mVertices.length ≤ ai.mNormals.length →
      (∀ ch, ai.mTextureCoords0 = some ch → ai.mVertices.length ≤ ch.length) →
      (∀ f ∈ material.diffuse ++ material.specular,
        f ∈ paths c ∨ ext.IMG_Load (d ++ "/" ++ f) ≠ none) →
      ∃ m c1, load_mesh ext d ai scene c = .ok (m, c1)) := by
  constructor
  · intro m c1 h
    obtain ⟨mg, material1, -, hmat1, hm, -, hmem, -⟩ := load_mesh_spec ext d ai scene c c1 m h
    rw [hmat] at hmat1
    cases hmat1
    subst hm
    refine ⟨by simp, ?_, ?_⟩
    · intro j f hj
      have hj2 : (material.diffuse ++ material.specular)[j]? = some f := by
        have hlt : j < material.diffuse.length := by
          by_contra hc
          rw [List.getElem?_eq_none (by omega)] at hj
          cases hj
        rw [List.getElem?_append_left hlt]
        exact hj
      refine ⟨?_, paths_lookup c1 f ((hmem f).2 (Or.inr (List.getElem?_mem hj2)))⟩
      show (List.map (lookup c1) (material.diffuse ++ material.specular))[j]? = _
      rw [List.getElem?_map, hj2]
      rfl
    · intro j f hj
      have hj2 : (material.diffuse ++ material.specular)[material.diffuse.length + j]? = some f := by
        rw [List.getElem?_append_right (by omega)]
        simpa using hj
      refine ⟨?_, paths_lookup c1 f ((hmem f).2 (Or.inr (List.getElem?_mem hj2)))⟩
      show (List.map (lookup c1) (material.diffuse ++ material.specular))[_]? = _
      rw [List.getElem?_map, hj2]
      rfl
  · intro hn huv hdec
    exact load_mesh_total ext d ai scene c material hn huv hmat hdec

/-- C15. For an imported mesh with `n` vertices that does not expose UV channel 0, the Mesh
returned by `load_mesh` has `2 n` floats in `tex_coords`, all of them 0; and `load_mesh`
returns a Mesh when the normals are complete, the material exists and its files are cached
or decode. -/
theorem load_mesh_no_uv (ext : Extern F) (d : String) (ai : aiMesh F) (scene : aiScene F)
    (c : List Texture) (huv : HasTextureCoords0 ai = false) :
    (∀ (m : Mesh F) (c1 : List Texture), load_mesh ext d ai scene c = .ok (m, c1) →
      m.tex_coords.length = 2 * ai.mVertices.length ∧ ∀ x ∈ m.tex_coords, x = 0) ∧
    (ai.mVertices.length ≤ ai.mNormals.length →
      ∀ material, scene.mMaterials[ai.mMaterialIndex]? = some material →
      (∀ f ∈ material.diffuse ++ material.specular,
        f ∈ paths c ∨ ext.IMG_Load (d ++ "/" ++ f) ≠ none) →
      ∃ m c1, load_mesh ext d ai scene c = .ok (m, c1)) := by
  have hcases : ai.mTextureCoords0 = none ∨ ai.mVertices.length = 0 := by
    cases hch : ai.mTextureCoords0 with
    | none => exact Or.inl rfl
    | some ch =>
      right
      simp only [HasTextureCoords0, hch, Option.isSome_some, Bool.true_and,
        decide_eq_false_iff_not, not_lt, Nat.le_zero_eq] at huv
      exact huv
  constructor
  · intro m c1 h
    obtain ⟨mg, material, hg, -, hm, -⟩ := load_mesh_spec ext d ai scene c c1 m h
    obtain ⟨-, -, -, -, -, g6, g7, -, -⟩ := load_mesh_geometry_spec ai mg hg
    subst hm
    refine ⟨g6, ?_⟩
    intro x hx
    rcases hcases with hnone | hzero
    · have := g7 hnone
      rw [show mg.tex_coords = List.replicate (2 * ai.mVertices.length) 0 from this] at hx
      exact (List.mem_replicate.1 hx).2
    · have hl : mg.tex_coords.length = 0 := by rw [g6, hzero]
      have hnil : mg.tex_coords = [] := List.length_eq_zero.1 hl
      rw [show mg.tex_coords = [] from hnil] at hx
      cases hx
  · intro hn material hmat hdec
    refine load_mesh_total ext d ai scene c material hn ?_ hmat hdec
    intro ch hch
    rcases hcases with hnone | hzero
    · rw [hnone] at hch; cases hch
    · omega

set_option maxRecDepth 100000 in
/-- Witness for C13: two diffuse slots and one specular slot. -/
theorem load_mesh_texture_order_witness :
    ∃ m c1, load_mesh demo_ext_all "assets" demo_mesh demo_scene_roles [] = .ok (m, c1) ∧
      m.textures.length = 2 + 1 ∧ m.textures[1]? = some (lookup c1 "wood.png") ∧
      m.textures[2 + 0]? = some (lookup c1 "brick.png") := by
  have h := load_mesh_texture_order demo_ext_all "assets" demo_mesh demo_scene_roles []
    ⟨32, ["brick.png", "wood.png"], ["brick.png"]⟩ rfl
  obtain ⟨m, c1, hm⟩ := h.2 (by simp [demo_mesh]) (fun ch hch => by simp [demo_mesh] at hch)
    (fun f _ => Or.inr (by simp [demo_ext_all]))
  obtain ⟨a1, a2, a3⟩ := h.1 m c1 hm
  exact ⟨m, c1, hm, a1, (a2 1 "wood.png" rfl).1, (a3 0 "brick.png" rfl).1⟩

set_option maxRecDepth 100000 in
/-- Witness for C15: the triangle of `demo_scene` has no UV channel. -/
theorem load_mesh_no_uv_witness :
    ∃ m c1, load_mesh demo_ext "assets" demo_mesh demo_scene [] = .ok (m, c1) ∧
      m.tex_coords.length = 2 * 3 ∧ ∀ x ∈ m.tex_coords, x = 0 := by
  have h := load_mesh_no_uv demo_ext "assets" demo_mesh demo_scene [] rfl
  obtain ⟨m, c1, hm⟩ : ∃ m c1, load_mesh demo_ext "assets" demo_mesh demo_scene [] = .ok (m, c1) :=
    ⟨_, _, rfl⟩
  exact ⟨m, c1, hm, (h.1 m c1 hm).1, (h.1 m c1 hm).2⟩

end MeshClaims

section Traversal

variable {F : Type} [LinearOrderedField F]

/-- Running the mesh loop over a concatenation of index lists. -/
theorem unfold_meshes_append (ext : Extern F) (d : String) (scene : aiScene F)
    (l1 l2 : List Nat) (st : List (Mesh F) × List Texture) :
    (l1 ++ l2).foldlM (unfold_mesh ext d scene) st =
      match l1.foldlM (unfold_mesh ext d scene) st with
      | .error e => .error e
      | .ok st1 => l2.foldlM (unfold_mesh ext d scene) st1 := by
  rw [List.foldlM_append]
  cases l1.foldlM (unfold_mesh ext d scene) st <;> rfl

mutual
/-- The traversal of a node is the mesh loop run over the node's pre-order references. -/
theorem unfold_assimp_node_eq (ext : Extern F) (d : String) (scene : aiScene F) :
    ∀ (node : aiNode) (st : List (Mesh F) × List Texture),
      unfold_assimp_node ext d scene node st
        = (preorder_refs node).foldlM (unfold_mesh ext d scene) st
  | .mk mMeshes mChildren, st => by
    rw [unfold_assimp_node, preorder_refs, unfold_meshes_append]
    cases mMeshes.foldlM (unfold_mesh ext d scene) st with
    | error e => rfl
    | ok st1 => exact unfold_children_eq ext d scene mChildren st1
/-- The child loop is the mesh loop run over the children's pre-order references. -/
theorem unfold_children_eq (ext : Extern F) (d : String) (scene : aiScene F) :
    ∀ (cs : List aiNode) (st : List (Mesh F) × List Texture),
      unfold_children ext d scene cs st
        = (preorder_refs_children cs).foldlM (unfold_mesh ext d scene) st
  | [], st => by
    rw [unfold_children, preorder_refs_children]
    rfl
  | c :: cs, st => by
    rw [unfold_children, preorder_refs_children, unfold_meshes_append,
      unfold_assimp_node_eq ext d scene c st]
    cases (preorder_refs c).foldlM (unfold_mesh ext d scene) st with
    | error e => rfl
    | ok st1 => exact unfold_children_eq ext d scene cs st1
end

/-- One pass of the mesh loop: the referenced mesh is converted and appended. -/
theorem unfold_mesh_spec (ext : Extern F) (d : String) (scene : aiScene F)
    (st st1 : List (Mesh F) × List Texture) (idx : Nat)
    (h : unfold_mesh ext d scene st idx = .ok st1) :
    ∃ ai m, scene.mMeshes[idx]? = some ai ∧
      load_mesh ext d ai scene st.2 = .ok (m, st1.2) ∧ st1.1 = st.1 ++ [m] := by
  unfold unfold_mesh at h
  split at h
  · cases h
  · rename_i ai hai
    split at h
    · cases h
    · rename_i m cache hl
      cases h
      exact ⟨ai, m, hai, hl, rfl⟩

/-- A completed mesh loop appends one Mesh per reference, in order, each holding the imported
positions of the referenced mesh as they are. -/
theorem unfold_meshes_spec (ext : Extern F) (d : String) (scene : aiScene F) (l : List Nat) :
    ∀ (st st1 : List (Mesh F) × List Texture),
      l.foldlM (unfold_mesh ext d scene) st = .ok st1 →
      ∃ added : List (Mesh F), st1.1 = st.1 ++ added ∧ added.length = l.length ∧
        paths st.2 <+: paths st1.2 ∧
        ∀ (k idx : Nat), l[k]? = some idx →
          ∃ ai m, scene.mMeshes[idx]? = some ai ∧ added[k]? = some m ∧
            m.vertices = flatten3 ai.mVertices := by
  induction l with
  | nil =>
    intro st st1 h
    simp only [List.foldlM_nil, pure, Except.pure, Except.ok.injEq] at h
    subst h
    exact ⟨[], by simp, rfl, List.prefix_refl _, fun k idx hk => by simp at hk⟩
  | cons i rest ih =>
    intro st st1 h
    rw [List.foldlM_cons] at h
    cases hstep : unfold_mesh ext d scene st i with
    | error e => simp [hstep, bind, Except.bind] at h
    | ok st0 =>
      simp only [hstep, bind, Except.bind] at h
      obtain ⟨ai, m, hai, hl, hst0⟩ := unfold_mesh_spec ext d scene st st0 i hstep
      obtain ⟨added, a1, a2, a3, a4⟩ := ih st0 st1 h
      obtain ⟨mg, material, hg, -, hm, hpre, -, -⟩ := load_mesh_spec ext d ai scene _ _ m hl
      have hv : m.vertices = flatten3 ai.mVertices := by
        rw [hm]
        exact (load_mesh_geometry_spec ai mg hg).2.2.1
      refine ⟨m :: added, ?_, by simp [a2], hpre.trans a3, ?_⟩
      · rw [a1, hst0]; simp
      · intro k idx hk
        cases k with
        | zero =>
          simp only [List.getElem?_cons_zero, Option.some.injEq] at hk
          subst hk
          exact ⟨ai, m, hai, by simp, hv⟩
        | succ k =>
          simp only [List.getElem?_cons_succ] at hk
          obtain ⟨ai2, m2, b1, b2, b3⟩ := a4 k idx hk
          exact ⟨ai2, m2, b1, by simpa using b2, b3⟩

/-- The mesh loop completes when every reference is in range and every referenced mesh is
complete, has a material and has texture files that are cached or decode. -/
theorem unfold_meshes_total (ext : Extern F) (d : String) (scene : aiScene F) (l : List Nat) :
    ∀ (st : List (Mesh F) × List Texture),
      (∀ idx ∈ l, ∃ ai material, scene.mMeshes[idx]? = some ai ∧
        ai.mVertices.length ≤ ai.mNormals.length ∧
        (∀ ch, ai.mTextureCoords0 = some ch → ai.mVertices.length ≤ ch.length) ∧
        scene.mMaterials[ai.mMaterialIndex]? = some material ∧
        ∀ f ∈ material.diffuse ++ material.specular,
          f ∈ paths st.2 ∨ ext.IMG_Load (d ++ "/" ++ f) ≠ none) →
      ∃ st1, l.foldlM (unfold_mesh ext d scene) st = .ok st1 := by
  induction l with
  | nil => intro st _; exact ⟨st, rfl⟩
  | cons i rest ih =>
    intro st h
    obtain ⟨ai, material, hai, hn, huv, hmat, hdec⟩ := h i (List.mem_cons_self _ _)
    obtain ⟨m, c1, hl⟩ := load_mesh_total ext d ai scene st.2 material hn huv hmat hdec
    obtain ⟨-, -, -, -, -, hpre, -, -⟩ := load_mesh_spec ext d ai scene _ _ m hl
    have hstep : unfold_mesh ext d scene st i = .ok (st.1 ++ [m], c1) := by
      unfold unfold_mesh
      simp only [hai, hl]
    obtain ⟨st1, hst1⟩ := ih (st.1 ++ [m], c1) (fun idx hidx => by
      obtain ⟨ai2, mat2, b1, b2, b3, b4, b5⟩ := h idx (List.mem_cons_of_mem _ hidx)
      refine ⟨ai2, mat2, b1, b2, b3, b4, fun f hf => ?_⟩
      rcases b5 f hf with hc | hc
      · exact Or.inl (hpre.subset hc)
      · exact Or.inr hc)
    refine ⟨st1, ?_⟩
    rw [List.foldlM_cons]
    simp only [hstep, bind, Except.bind]
    exact hst1

/-- C16. For every scene node tree `unfold_assimp_node` is the mesh loop run over the tree's
mesh references in pre-order; when it completes it has appended to `meshes` one Mesh per
reference (so a mesh referenced several times is converted once per reference), in
pre-order, each holding the imported positions without any transform; and it completes when
every reference is in range and every referenced mesh converts. -/
theorem unfold_assimp_node_preorder (ext : Extern F) (d : String) (scene : aiScene F)
    (node : aiNode) (st : List (Mesh F) × List Texture) :
    unfold_assimp_node ext d scene node st
      = (preorder_refs node).foldlM (unfold_mesh ext d scene) st ∧
    (∀ st1, unfold_assimp_node ext d scene node st = .ok st1 →
      ∃ added : List (Mesh F), st1.1 = st.1 ++ added ∧
        added.length = (preorder_refs node).length ∧
        ∀ (k idx : Nat), (preorder_refs node)[k]? = some idx →
          ∃ ai m, scene.mMeshes[idx]? = some ai ∧ added[k]? = some m ∧
            m.vertices = flatten3 ai.mVertices) ∧
    ((∀ idx ∈ preorder_refs node, ∃ ai material, scene.mMeshes[idx]? = some ai ∧
        ai.mVertices.length ≤ ai.mNormals.length ∧
        (∀ ch, ai.mTextureCoords0 = some ch → ai.mVertices.length ≤ ch.length) ∧
        scene.mMaterials[ai.mMaterialIndex]? = some material ∧
        ∀ f ∈ material.diffuse ++ material.specular,
          f ∈ paths st.2 ∨ ext.IMG_Load (d ++ "/" ++ f) ≠ none) →
      ∃ st1, unfold_assimp_node ext d scene node st = .ok st1) := by
  have heq := unfold_assimp_node_eq ext d scene node st
  refine ⟨heq, ?_, ?_⟩
  · intro st1 h
    rw [heq] at h
    obtain ⟨added, a1, a2, -, a4⟩ := unfold_meshes_spec ext d scene _ st st1 h
    exact ⟨added, a1, a2, a4⟩
  · intro h
    rw [heq]
    exact unfold_meshes_total ext d scene _ st h

/-- Witness for C16: `demo_tree` references mesh 0 three times and mesh 1 twice; five meshes
are appended, in the order 0, 1, 0, 0, 1. -/
theorem unfold_assimp_node_preorder_witness :
    preorder_refs demo_tree = [0, 1, 0, 0, 1] ∧
    ∃ st1, unfold_assimp_node demo_ext "assets" demo_scene_tree demo_tree ([], []) = .ok st1 ∧
      st1.1.length = 5 := by
  have hrefs : preorder_refs demo_tree = [0, 1, 0, 0, 1] := rfl
  refine ⟨hrefs, ?_⟩
  have h := unfold_assimp_node_preorder demo_ext "assets" demo_scene_tree demo_tree ([], [])
  obtain ⟨st1, hst1⟩ := h.2.2 (by
    intro idx hidx
    rw [hrefs] at hidx
    have hdec : ∀ f ∈ ["brick.png"] ++ ([] : List String),
        f ∈ paths ([] : List Texture) ∨ demo_ext.IMG_Load ("assets" ++ "/" ++ f) ≠ none := by
      intro f hf
      simp only [List.append_nil, List.mem_singleton] at hf
      subst hf
      exact Or.inr (by decide)
    have h01 : idx = 0 ∨ idx = 1 := by
      simp only [List.mem_cons, List.mem_singleton, List.not_mem_nil, or_false] at hidx
      omega
    rcases h01 with rfl | rfl
    · exact ⟨demo_mesh, ⟨32, ["brick.png"], []⟩, rfl, by decide,
        fun ch hch => by simp [demo_mesh] at hch, rfl, hdec⟩
    · exact ⟨demo_mesh_b, ⟨8, ["brick.png"], []⟩, rfl, by decide,
        fun ch hch => by simp [demo_mesh_b, demo_mesh] at hch, rfl, hdec⟩)
  obtain ⟨added, a1, a2, -⟩ := h.2.1 st1 hst1
  refine ⟨st1, hst1, ?_⟩
  rw [a1, List.length_append, a2, hrefs]
  rfl

end Traversal

section Roles

variable {F : Type}

/-- The role after two runs of slots. -/
theorem last_role_append (r0 : Option TextureType) (s1 s2 : List (TextureType × String))
    (f : String) : last_role r0 (s1 ++ s2) f = last_role (last_role r0 s1 f) s2 f := by
  unfold last_role
  rw [List.foldl_append]

/-- No slot that names `f`: the role is unchanged. -/
theorem last_role_skip (slots : List (TextureType × String)) (f : String) :
    ∀ (r0 : Option TextureType), (∀ s ∈ slots, s.2 ≠ f) → last_role r0 slots f = r0 := by
  induction slots with
  | nil => intro r0 _; rfl
  | cons s rest ih =>
    intro r0 h
    unfold last_role
    rw [List.foldl_cons, if_neg (h s (List.mem_cons_self _ _))]
    exact ih r0 (fun t ht => h t (List.mem_cons_of_mem _ ht))

/-- Resolving a slot writes its role on the cached texture of its file and on no other. -/
theorem load_mesh_texture_role (ext : Extern F) (d : String) (ty : TextureType) (f : String)
    (mt mt1 : List TexturePtr) (c c1 : List Texture)
    (h : load_mesh_texture ext d ty (mt, c) f = .ok (mt1, c1)) (g : String) :
    cached_role c1 g = if f = g then some ty else cached_role c g := by
  have hspec := load_mesh_texture_spec ext d ty f mt mt1 c c1 h
  unfold load_mesh_texture at h
  split at h
  · cases h
  · rename_i t c0 hl
    simp only [Except.ok.injEq, Prod.mk.injEq] at h
    obtain ⟨-, hc1⟩ := h
    rcases load_texture_cases ext f d c c0 t hl with ⟨hm, rfl, rfl⟩ | ⟨hm, rfl, rfl⟩
    · -- hit
      have hp : paths c1 = paths c0 := by rw [hspec.2.2, if_pos hm]
      have hlt : lookup c0 f < c0.length := (lookup_lt_iff c0 f).2 hm
      unfold cached_role
      rw [lookup_congr c1 c0 g hp, ← hc1]
      by_cases hfg : f = g
      · subst hfg
        rw [if_pos rfl, List.getElem?_set_eq_of_lt _ hlt]
        rfl
      · rw [if_neg hfg]
        have hne : lookup c0 f ≠ lookup c0 g := by
          intro heq
          have hg : g ∈ paths c0 := (lookup_lt_iff c0 g).1 (heq ▸ hlt)
          have e1 := paths_lookup c0 f hm
          have e2 := paths_lookup c0 g hg
          rw [heq, e2] at e1
          exact hfg (Option.some.inj e1).symm
        rw [List.getElem?_set_ne hne]
    · -- miss
      have hc1b : c1 = c ++ [⟨ty, f⟩] := by
        rw [← hc1, List.set_append_right _ _ (le_refl _)]
        simp
      have hp : paths c1 = paths c ++ [f] := by rw [hspec.2.2, if_neg hm]
      unfold cached_role
      by_cases hfg : f = g
      · subst hfg
        rw [if_pos rfl]
        have hlk : lookup c1 f = c.length := by
          rw [lookup_eq_paths, hp, List.findIdx_append]
          have hnot : ¬ ((paths c).findIdx (fun p => decide (p = f)) < (paths c).length) := by
            rw [List.findIdx_lt_length]
            simpa using hm
          rw [if_neg hnot]
          simp [paths, List.findIdx_cons]
        rw [hlk, hc1b, List.getElem?_append_right (le_refl _)]
        simp
      · rw [if_neg hfg]
        by_cases hg : g ∈ paths c
        · have hst : lookup c1 g = lookup c g :=
            lookup_stable c c1 g (by rw [hp]; exact List.prefix_append _ _) hg
          have hlt : lookup c g < c.length := (lookup_lt_iff c g).2 hg
          rw [hst, hc1b, List.getElem?_append_left hlt]
        · have h1 : ¬ lookup c g < c.length := fun hh => hg ((lookup_lt_iff c g).1 hh)
          have hg1 : g ∉ paths c1 := by
            rw [hp]
            simp only [List.mem_append, List.mem_singleton, not_or]
            exact ⟨hg, fun e => hfg e.symm⟩
          have h2 : ¬ lookup c1 g < c1.length := fun hh => hg1 ((lookup_lt_iff c1 g).1 hh)
          rw [List.getElem?_eq_none (by omega), List.getElem?_eq_none (by omega)]

/-- The roles after a texture loop: for every file the role of the last slot that names it. -/
theorem load_textures_role (ext : Extern F) (d : String) (ty : TextureType)
    (names : List String) (g : String) :
    ∀ (mt : List TexturePtr) (c : List Texture) (mt1 : List TexturePtr) (c1 : List Texture),
      names.foldlM (load_mesh_texture ext d ty) (mt, c) = .ok (mt1, c1) →
      cached_role c1 g = last_role (cached_role c g) (names.map (fun f => (ty, f))) g := by
  induction names with
  | nil =>
    intro mt c mt1 c1 h
    simp only [List.foldlM_nil, pure, Except.pure, Except.ok.injEq, Prod.mk.injEq] at h
    obtain ⟨-, rfl⟩ := h
    rfl
  | cons f rest ih =>
    intro mt c mt1 c1 h
    rw [List.foldlM_cons] at h
    cases hstep : load_mesh_texture ext d ty (mt, c) f with
    | error e => simp [hstep, bind, Except.bind] at h
    | ok st =>
      obtain ⟨mt0, c0⟩ := st
      simp only [hstep, bind, Except.bind] at h
      rw [ih mt0 c0 mt1 c1 h, load_mesh_texture_role ext d ty f mt mt0 c c0 hstep g]
      rfl

variable [LinearOrderedField F]

/-- The roles after a conversion. -/
theorem load_mesh_role (ext : Extern F) (j : MeshJob F) (c c1 : List Texture) (m : Mesh F)
    (h : load_mesh ext j.directory j.ai_mesh j.scene c = .ok (m, c1)) (g : String) :
    cached_role c1 g = last_role (cached_role c g) (job_slots j) g := by
  unfold load_mesh at h
  split at h
  · cases h
  · split at h
    · cases h
    · rename_i material hmat
      simp only at h
      split at h
      · cases h
      · rename_i st1 hd
        split at h
        · cases h
        · rename_i st2 hs
          obtain ⟨mt1, ca⟩ := st1
          obtain ⟨mt2, cb⟩ := st2
          simp only [Except.ok.injEq, Prod.mk.injEq] at h
          obtain ⟨-, rfl⟩ := h
          have hslots : job_slots j = material_slots material := by
            unfold job_slots; rw [hmat]
          rw [hslots, material_slots, last_role_append,
            ← load_textures_role ext j.directory _ _ g _ _ _ _ hd,
            ← load_textures_role ext j.directory _ _ g _ _ _ _ hs]

/-- The roles after a sequence of conversions. -/
theorem load_mesh_all_role (ext : Extern F) (jobs : List (MeshJob F)) (g : String) :
    ∀ (c : List Texture) (meshes : List (Mesh F)) (c1 : List Texture),
      load_mesh_all ext c jobs = .ok (meshes, c1) →
      cached_role c1 g = last_role (cached_role c g) (all_slots jobs) g := by
  induction jobs with
  | nil =>
    intro c meshes c1 h
    simp only [load_mesh_all, Except.ok.injEq, Prod.mk.injEq] at h
    obtain ⟨-, rfl⟩ := h
    rfl
  | cons j rest ih =>
    intro c meshes c1 h
    simp only [load_mesh_all] at h
    split at h
    · cases h
    · rename_i m c0 hj
      split at h
      · cases h
      · rename_i ms c2 hrest
        simp only [Except.ok.injEq, Prod.mk.injEq] at h
        obtain ⟨-, rfl⟩ := h
        rw [all_slots, last_role_append, ← load_mesh_role ext j c c0 m hj g,
          ← ih c0 ms c2 hrest]

/-- C17. Starting from an empty cache, after a completed sequence of conversions in which
the last slot that names `f` is a specular one (in particular when `f` is resolved once as
a diffuse slot and later once as a specular slot): the cache holds exactly one Texture whose
path is `f`, its `type` is `SPECULAR`, and every texture-list entry of every mesh that was
resolved from `f`, the diffuse ones included, is that Texture. -/
theorem texture_role_last_write (ext : Extern F) (jobs : List (MeshJob F))
    (meshes : List (Mesh F)) (cache : List Texture) (f : String)
    (before after : List (TextureType × String))
    (hrun : load_mesh_all ext [] jobs = .ok (meshes, cache))
    (hslots : all_slots jobs = before ++ (TextureType.SPECULAR, f) :: after)
    (hafter : ∀ s ∈ after, s.2 ≠ f) :
    (paths cache).count f = 1 ∧
    cache[lookup cache f]? = some ⟨TextureType.SPECULAR, f⟩ ∧
    ∀ (k i : Nat) (j : MeshJob F) (m : Mesh F), jobs[k]? = some j → meshes[k]? = some m →
      (job_names j)[i]? = some f → m.textures[i]? = some (lookup cache f) := by
  have hrole := load_mesh_all_role ext jobs f [] meshes cache hrun
  rw [hslots, last_role_append] at hrole
  have hlast : last_role (last_role (cached_role ([] : List Texture) f) before f)
      ((TextureType.SPECULAR, f) :: after) f = some TextureType.SPECULAR := by
    unfold last_role
    rw [List.foldl_cons, if_pos rfl]
    exact last_role_skip after f _ hafter
  rw [hlast] at hrole
  obtain ⟨h1, -, -, -, h5⟩ := load_mesh_all_spec ext jobs [] meshes cache hrun
  have hnodup : (paths cache).Nodup := h5 (by simp [paths])
  have hmem : f ∈ paths cache := by
    by_contra hc
    have hge : ¬ lookup cache f < cache.length := fun hh => hc ((lookup_lt_iff cache f).1 hh)
    unfold cached_role at hrole
    rw [List.getElem?_eq_none (by omega)] at hrole
    cases hrole
  refine ⟨List.count_eq_one_of_mem hnodup hmem, ?_, ?_⟩
  · have hp := paths_lookup cache f hmem
    unfold cached_role at hrole
    unfold paths at hp
    rw [List.getElem?_map] at hp
    cases hget : cache[lookup cache f]? with
    | none => rw [hget] at hrole; cases hrole
    | some tex =>
      rw [hget] at hrole hp
      simp only [Option.map_some', Option.some.injEq] at hrole hp
      cases tex
      simp only at hrole hp
      subst hrole; subst hp
      rfl
  · intro k i j m hj hm hi
    rw [h1 k j m hj hm, List.getElem?_map, hi]
    rfl

set_option maxRecDepth 100000 in
/-- Witness for C17: `brick.png` is a diffuse slot of the first material and a specular slot
of the second. -/
theorem texture_role_last_write_witness :
    ∃ meshes cache, load_mesh_all demo_ext [] demo_jobs_roles = .ok (meshes, cache) ∧
      cache[lookup cache "brick.png"]? = some ⟨TextureType.SPECULAR, "brick.png"⟩ := by
  obtain ⟨meshes, cache, hrun⟩ : ∃ meshes cache,
      load_mesh_all demo_ext [] demo_jobs_roles = .ok (meshes, cache) := ⟨_, _, rfl⟩
  exact ⟨meshes, cache, hrun,
    (texture_role_last_write demo_ext demo_jobs_roles meshes cache "brick.png"
      [(TextureType.DIFFUSE, "brick.png")] [] hrun rfl (fun s hs => by cases hs)).2.1⟩

end Roles

section SweepClaims

variable {F : Type} [LinearOrderedField F]

/-- A point of a box lies in every wider box. -/
theorem Bounds.contains_of_widens (bd bd1 : Bounds F) (x y z : F) (hw : Bounds.widens bd bd1)
    (hc : Bounds.contains bd x y z) : Bounds.contains bd1 x y z := by
  obtain ⟨w1, w2, w3, w4, w5, w6⟩ := hw
  obtain ⟨c1, c2, c3, c4, c5, c6⟩ := hc
  exact ⟨c1.trans w1, c2.trans w2, c3.trans w3, w4.trans c4, w5.trans c5, w6.trans c6⟩

/-- The sweep of one mesh whose vertex array holds `3 k` floats, `k ≥ 1`: it completes, the
bounds only widen, and afterwards the box contains every vertex of the mesh. -/
theorem sweep_mesh_spec (bd : Bounds F) (m : Mesh F) (h3 : 3 ∣ m.vertices.length)
    (hpos : m.vertices ≠ []) (hsize : m.vertices.length < 2 ^ 31) :
    ∃ bd1, sweep_mesh bd m = .ok bd1 ∧ Bounds.widens bd bd1 ∧
      ∀ (t : Nat) (x y z : F), m.vertices[3 * t]? = some x → m.vertices[3 * t + 1]? = some y →
        m.vertices[3 * t + 2]? = some z → Bounds.contains bd1 x y z := by
  have hlen : 3 ≤ m.vertices.length := by
    have h0 : m.vertices.length ≠ 0 := fun h => hpos (List.length_eq_zero.1 h)
    obtain ⟨k, hk⟩ := h3
    omega
  obtain ⟨bd1, hrun, hmono, hcover⟩ :=
    sweep_loop_spec m.vertices (m.vertices.length - 2) 0 bd (Or.inl ⟨by omega, by omega⟩)
  refine ⟨bd1, ?_, hmono, ?_⟩
  · unfold sweep_mesh
    rw [sweep_bound_eq _ (by omega) (by omega)]
    exact hrun
  · intro t x y z hx hy hz
    have hlt : 3 * t + 2 < m.vertices.length := by
      by_contra hc
      rw [List.getElem?_eq_none (by omega)] at hz
      cases hz
    exact hcover (3 * t) x y z (Nat.zero_le _) (by omega) hx hy hz

/-- The sweep of a list of meshes whose vertex arrays hold `3 k` floats, `k ≥ 1`. -/
theorem sweep_meshes_spec (meshes : List (Mesh F)) :
    ∀ (bd : Bounds F),
      (∀ m ∈ meshes, 3 ∣ m.vertices.length ∧ m.vertices ≠ [] ∧ m.vertices.length < 2 ^ 31) →
      ∃ bd1, meshes.foldlM sweep_mesh bd = .ok bd1 ∧ Bounds.widens bd bd1 ∧
        ∀ m ∈ meshes, ∀ (t : Nat) (x y z : F), m.vertices[3 * t]? = some x →
          m.vertices[3 * t + 1]? = some y → m.vertices[3 * t + 2]? = some z →
          Bounds.contains bd1 x y z := by
  induction meshes with
  | nil =>
    intro bd _
    exact ⟨bd, rfl, ⟨le_refl _, le_refl _, le_refl _, le_refl _, le_refl _, le_refl _⟩,
      fun m hm => by cases hm⟩
  | cons m rest ih =>
    intro bd h
    obtain ⟨h3, hpos, hsize⟩ := h m (List.mem_cons_self _ _)
    obtain ⟨bd1, hrun1, hw1, hc1⟩ := sweep_mesh_spec bd m h3 hpos hsize
    obtain ⟨bd2, hrun2, hw2, hc2⟩ := ih bd1 (fun m2 hm2 => h m2 (List.mem_cons_of_mem _ hm2))
    refine ⟨bd2, ?_, ?_, ?_⟩
    · rw [List.foldlM_cons, hrun1]
      exact hrun2
    · obtain ⟨a1, a2, a3, a4, a5, a6⟩ := hw1
      obtain ⟨b1, b2, b3, b4, b5, b6⟩ := hw2
      exact ⟨a1.trans b1, a2.trans b2, a3.trans b3, b4.trans a4, b5.trans a5, b6.trans a6⟩
    · intro m2 hm2 t x y z hx hy hz
      rcases List.mem_cons.1 hm2 with rfl | hm2
      · exact Bounds.contains_of_widens bd1 bd2 x y z hw2 (hc1 t x y z hx hy hz)
      · exact hc2 m2 hm2 t x y z hx hy hz

/-- An iteration of the sweep over an empty array reads out of range. -/
theorem sweep_loop_nil (k i : Nat) (bd : Bounds F) :
    sweep_loop ([] : List F) (k + 1) i bd = .error Fault.out_of_range := by
  rw [sweep_loop]
  rfl

/-- The loop bound of an empty array: `0 - 2` wraps to `2 ^ 64 - 2`. -/
theorem sweep_bound_zero : sweep_bound 0 = 18446744073709551613 + 1 := by
  unfold sweep_bound
  norm_num

/-- The sweep of a mesh without vertices reads out of range. -/
theorem sweep_mesh_empty (bd : Bounds F) (m : Mesh F) (h : m.vertices = []) :
    sweep_mesh bd m = .error Fault.out_of_range := by
  unfold sweep_mesh
  rw [h, List.length_nil, sweep_bound_zero, sweep_loop_nil]

/-- The sweep of a list of meshes one of which has no vertices reads out of range. -/
theorem sweep_meshes_empty (meshes : List (Mesh F)) :
    ∀ (bd : Bounds F),
      (∀ m ∈ meshes, 3 ∣ m.vertices.length ∧ m.vertices.length < 2 ^ 31) →
      (∃ m ∈ meshes, m.vertices = []) →
      meshes.foldlM sweep_mesh bd = .error Fault.out_of_range := by
  induction meshes with
  | nil => intro bd _ h; obtain ⟨m, hm, -⟩ := h; cases hm
  | cons m rest ih =>
    intro bd hwf h
    rw [List.foldlM_cons]
    by_cases hm : m.vertices = []
    · rw [sweep_mesh_empty bd m hm]
      rfl
    · obtain ⟨h3, hsize⟩ := hwf m (List.mem_cons_self _ _)
      obtain ⟨bd1, hrun1, -, -⟩ := sweep_mesh_spec bd m h3 hm hsize
      rw [hrun1]
      show rest.foldlM sweep_mesh bd1 = _
      apply ih bd1 (fun m2 hm2 => hwf m2 (List.mem_cons_of_mem _ hm2))
      obtain ⟨m2, hm2, he⟩ := h
      rcases List.mem_cons.1 hm2 with rfl | hm2
      · exact absurd he hm
      · exact ⟨m2, hm2, he⟩

/-- The derivation reads out of range when the sweep does. -/
theorem generate_bounding_sphere_of_fault (sqrt : F → F) (self : Model F) (m : Mesh F) (v : F)
    (h0 : self.meshes[0]? = some m) (hv : m.vertices[0]? = some v)
    (hfold : self.meshes.foldlM sweep_mesh (⟨v, v, v, v, v, v⟩ : Bounds F)
      = .error Fault.out_of_range) :
    generate_bounding_sphere sqrt self = .error Fault.out_of_range := by
  unfold generate_bounding_sphere
  rw [h0]
  simp only [hv, hfold]

/-- The derivation reads out of range when the first mesh has no vertices. -/
theorem generate_bounding_sphere_of_empty (sqrt : F → F) (self : Model F) (m : Mesh F)
    (h0 : self.meshes[0]? = some m) (hv : m.vertices = []) :
    generate_bounding_sphere sqrt self = .error Fault.out_of_range := by
  unfold generate_bounding_sphere
  rw [h0]
  simp only [hv, List.getElem?_nil]

/-- C20. For a model with at least one mesh whose vertex arrays have lengths that are
multiples of 3 (and below `2 ^ 31`, the range of the `int` loop counter):
`generate_bounding_sphere` makes no out-of-range read (it returns) if and only if every
mesh has at least one vertex; a mesh without vertices at any position of the list gives an
out-of-range read, the loop bound `size - 2` wrapping to `2 ^ 64 - 2`. -/
theorem bounding_sphere_reads_in_range (sqrt : F → F) (self : Model F)
    (hne : self.meshes ≠ [])
    (hwf : ∀ m ∈ self.meshes, 3 ∣ m.vertices.length ∧ m.vertices.length < 2 ^ 31) :
    ((∃ self1, generate_bounding_sphere sqrt self = .ok self1) ↔
      ∀ m ∈ self.meshes, m.vertices ≠ []) ∧
    ((∃ m ∈ self.meshes, m.vertices = []) →
      generate_bounding_sphere sqrt self = .error Fault.out_of_range) := by
  obtain ⟨m0, rest, hms⟩ : ∃ m0 rest, self.meshes = m0 :: rest := by
    cases hm : self.meshes with
    | nil => exact absurd hm hne
    | cons a l => exact ⟨a, l, rfl⟩
  have h0 : self.meshes[0]? = some m0 := by rw [hms, List.getElem?_cons_zero]
  have hbad : (∃ m ∈ self.meshes, m.vertices = []) →
      generate_bounding_sphere sqrt self = .error Fault.out_of_range := by
    intro hex
    by_cases hm0 : m0.vertices = []
    · exact generate_bounding_sphere_of_empty sqrt self m0 h0 hm0
    · obtain ⟨v, hv⟩ : ∃ v, m0.vertices[0]? = some v := by
        cases hvs : m0.vertices with
        | nil => exact absurd hvs hm0
        | cons a l => exact ⟨a, List.getElem?_cons_zero⟩
      exact generate_bounding_sphere_of_fault sqrt self m0 v h0 hv
        (sweep_meshes_empty self.meshes _ hwf hex)
  refine ⟨⟨?_, ?_⟩, hbad⟩
  · rintro ⟨self1, hok⟩ m hm hempty
    rw [hbad ⟨m, hm, hempty⟩] at hok
    cases hok
  · intro hall
    have hm0 : m0.vertices ≠ [] := hall m0 (by rw [hms]; exact List.mem_cons_self _ _)
    obtain ⟨v, hv⟩ : ∃ v, m0.vertices[0]? = some v := by
      cases hvs : m0.vertices with
      | nil => exact absurd hvs hm0
      | cons a l => exact ⟨a, List.getElem?_cons_zero⟩
    obtain ⟨bd, hfold, -, -⟩ := sweep_meshes_spec self.meshes ⟨v, v, v, v, v, v⟩
      (fun m hm => ⟨(hwf m hm).1, hall m hm, (hwf m hm).2⟩)
    exact ⟨_, generate_bounding_sphere_of_sweep sqrt self m0 v bd h0 hv hfold⟩

/-- Witness for C20: the triangle model is swept in range, the model with an empty second
mesh is not. -/
theorem bounding_sphere_reads_in_range_witness :
    (∃ self1, generate_bounding_sphere Rat.sqrt flat_triangle_model = .ok self1) ∧
    generate_bounding_sphere Rat.sqrt empty_mesh_model = .error Fault.out_of_range := by
  constructor
  · exact (bounding_sphere_reads_in_range Rat.sqrt flat_triangle_model (by simp [flat_triangle_model])
      (fun m hm => by
        simp only [flat_triangle_model, List.mem_singleton] at hm
        subst hm
        exact ⟨⟨3, rfl⟩, by simp [flat_triangle]⟩)).1.2
      (fun m hm => by
        simp only [flat_triangle_model, List.mem_singleton] at hm
        subst hm
        simp [flat_triangle])
  · exact (bounding_sphere_reads_in_range Rat.sqrt empty_mesh_model (by simp [empty_mesh_model])
      (fun m hm => by
        simp only [empty_mesh_model, List.mem_cons, List.mem_singleton, List.not_mem_nil,
          or_false] at hm
        rcases hm with rfl | rfl
        · exact ⟨⟨3, rfl⟩, by simp [flat_triangle]⟩
        · exact ⟨⟨0, rfl⟩, by simp [new_Mesh]⟩)).2
      ⟨new_Mesh, by simp [empty_mesh_model], rfl⟩

/-- One axis of the enclosure: for `lo ≤ x ≤ hi` the distance of `s x` from the middle of
`[s lo, s hi]` is at most half the length of that interval, in squares. -/
theorem axis_enclosed (s x lo hi : ℝ) (hlo : lo ≤ x) (hhi : x ≤ hi) :
    (s * x - (s * lo + 1 / 2 * (s * hi - s * lo))) * (s * x - (s * lo + 1 / 2 * (s * hi - s * lo)))
      ≤ 1 / 2 * (s * hi - s * lo) * (1 / 2 * (s * hi - s * lo)) := by
  have h := mul_nonneg (mul_self_nonneg s) (mul_nonneg (sub_nonneg.2 hhi) (sub_nonneg.2 hlo))
  nlinarith [h]

/-- C19. For every model with at least one mesh, every mesh's vertex array holding `3 k`
floats with `k ≥ 1` (fewer than `2 ^ 31`, the range of the `int` loop counter), and every
scale, `generate_bounding_sphere` returns and the sphere it stores contains every scaled
vertex: `|scale * v - bounding_sphere_center| ≤ bounding_sphere_radius` for every vertex
`v` of every mesh. -/
theorem bounding_sphere_encloses (self : Model ℝ) (hne : self.meshes ≠ [])
    (hlen : ∀ m ∈ self.meshes, ∃ k, 1 ≤ k ∧ m.vertices.length = 3 * k)
    (hsize : ∀ m ∈ self.meshes, m.vertices.length < 2 ^ 31) :
    ∃ self1, generate_bounding_sphere Real.sqrt self = .ok self1 ∧
      ∀ m ∈ self.meshes, ∀ (t : Nat) (x y z : ℝ), m.vertices[3 * t]? = some x →
        m.vertices[3 * t + 1]? = some y → m.vertices[3 * t + 2]? = some z →
        glm.length Real.sqrt
          (Vec3.sub (Vec3.smul self.scale ⟨x, y, z⟩) self1.bounding_sphere_center)
          ≤ self1.bounding_sphere_radius := by
  obtain ⟨m0, rest, hms⟩ : ∃ m0 rest, self.meshes = m0 :: rest := by
    cases hm : self.meshes with
    | nil => exact absurd hm hne
    | cons a l => exact ⟨a, l, rfl⟩
  have h0 : self.meshes[0]? = some m0 := by rw [hms, List.getElem?_cons_zero]
  have hwf : ∀ m ∈ self.meshes,
      3 ∣ m.vertices.length ∧ m.vertices ≠ [] ∧ m.vertices.length < 2 ^ 31 := by
    intro m hm
    obtain ⟨k, hk1, hk⟩ := hlen m hm
    refine ⟨⟨k, hk⟩, ?_, hsize m hm⟩
    intro hnil
    rw [hnil] at hk
    simp only [List.length_nil] at hk
    omega
  obtain ⟨v, hv⟩ : ∃ v, m0.vertices[0]? = some v := by
    have := (hwf m0 (by rw [hms]; exact List.mem_cons_self _ _)).2.1
    cases hvs : m0.vertices with
    | nil => exact absurd hvs this
    | cons a l => exact ⟨a, List.getElem?_cons_zero⟩
  obtain ⟨bd, hfold, -, hcontains⟩ := sweep_meshes_spec self.meshes ⟨v, v, v, v, v, v⟩ hwf
  refine ⟨_, generate_bounding_sphere_of_sweep Real.sqrt self m0 v bd h0 hv hfold, ?_⟩
  intro m hm t x y z hx hy hz
  obtain ⟨c1, c2, c3, c4, c5, c6⟩ := hcontains m hm t x y z hx hy hz
  simp only [glm.length, Vec3.sub, Vec3.smul, Vec3.add]
  apply Real.sqrt_le_sqrt
  have ex := axis_enclosed self.scale x bd.x_min bd.x_max c4 c1
  have ey := axis_enclosed self.scale y bd.y_min bd.y_max c5 c2
  have ez := axis_enclosed self.scale z bd.z_min bd.z_max c6 c3
  linarith

/-- Witness for C19: the cube at scale 2. -/
theorem bounding_sphere_encloses_witness :
    ∃ self1, generate_bounding_sphere Real.sqrt
        ({ Model.init (1 : Mat4 ℝ) ⟨0, 0, 0⟩ 2 with
           meshes := [{ (new_Mesh : Mesh ℝ) with vertices := flatten3 (cube_corners ℝ) }] })
        = .ok self1 ∧
      glm.length Real.sqrt (Vec3.sub (Vec3.smul 2 ⟨1, -1, -1⟩) self1.bounding_sphere_center)
        ≤ self1.bounding_sphere_radius := by
  obtain ⟨self1, h1, h2⟩ := bounding_sphere_encloses
    ({ Model.init (1 : Mat4 ℝ) ⟨0, 0, 0⟩ 2 with
       meshes := [{ (new_Mesh : Mesh ℝ) with vertices := flatten3 (cube_corners ℝ) }] })
    (by simp)
    (fun m hm => by
      simp only [List.mem_singleton] at hm
      subst hm
      exact ⟨8, by norm_num, rfl⟩)
    (fun m hm => by
      simp only [List.mem_singleton] at hm
      subst hm
      simp [flatten3, cube_corners])
  exact ⟨self1, h1, h2 _ (List.mem_singleton.2 rfl) 1 1 (-1) (-1) rfl rfl rfl⟩

end SweepClaims

section Directory

/-- For a path without `c`, `find_last_of` is `npos`. -/
theorem find_last_of_absent (p : String) (c : Char) (h : c ∉ p.data) :
    find_last_of p c = npos := by
  unfold find_last_of
  have hnot : ¬ (p.data.reverse.findIdx (fun d => decide (d = c)) < p.data.length) := by
    intro hlt
    rw [← List.length_reverse p.data, List.findIdx_lt_length] at hlt
    obtain ⟨x, hx, hxc⟩ := hlt
    simp only [decide_eq_true_eq] at hxc
    subst hxc
    exact h (List.mem_reverse.1 hx)
  simp only [hnot, if_false]

/-- For a path that contains `c`, `find_last_of` is the position of its last `c`: the path is
the prefix before that position, then `c`, then a rest without `c`. -/
theorem find_last_of_present (p : String) (c : Char) (h : c ∈ p.data) :
    find_last_of p c < p.data.length ∧
    p.data = p.data.take (find_last_of p c) ++ c :: p.data.drop (find_last_of p c + 1) ∧
    c ∉ p.data.drop (find_last_of p c + 1) := by
  have hlt : p.data.reverse.findIdx (fun d => decide (d = c)) < p.data.reverse.length := by
    rw [List.findIdx_lt_length]
    exact ⟨c, List.mem_reverse.2 h, by simp⟩
  have hlt2 : p.data.reverse.findIdx (fun d => decide (d = c)) < p.data.length := by
    simpa using hlt
  have hk : find_last_of p c
      = p.data.length - 1 - p.data.reverse.findIdx (fun d => decide (d = c)) := by
    unfold find_last_of
    simp only [hlt2, if_true]
  have hklt : find_last_of p c < p.data.length := by rw [hk]; omega
  have hget : p.data[find_last_of p c]? = some c := by
    have h1 := @List.findIdx_getElem _ (fun d => decide (d = c)) p.data.reverse hlt
    simp only [decide_eq_true_eq] at h1
    rw [List.getElem_reverse] at h1
    rw [hk]
    exact (List.getElem?_eq_getElem _).trans (congrArg some h1)
  refine ⟨hklt, ?_, ?_⟩
  · have := List.take_append_drop (find_last_of p c) p.data
    rw [List.drop_eq_getElem_cons hklt] at this
    rw [List.getElem?_eq_getElem hklt] at hget
    rw [Option.some.inj hget] at this
    exact this.symm
  · intro hmem
    obtain ⟨i, hi⟩ := List.mem_iff_getElem?.1 hmem
    rw [List.getElem?_drop] at hi
    have hilt : find_last_of p c + 1 + i < p.data.length := by
      by_contra hcon
      rw [List.getElem?_eq_none (by omega)] at hi
      cases hi
    -- the reversed position of this later `c` is before the first hit of the scan
    have hj : p.data.length - 1 - (find_last_of p c + 1 + i)
        < p.data.reverse.findIdx (fun d => decide (d = c)) := by
      rw [hk] at hilt ⊢
      omega
    have hfalse := List.not_of_lt_findIdx hj
    simp only [decide_eq_false_iff_not] at hfalse
    apply hfalse
    rw [List.getElem_reverse]
    have hsome : p.data[p.data.length - 1 - (p.data.length - 1 - (find_last_of p c + 1 + i))]?
        = some c := by
      rw [show p.data.length - 1 - (p.data.length - 1 - (find_last_of p c + 1 + i))
        = find_last_of p c + 1 + i by omega]
      exact hi
    obtain ⟨hb, hval⟩ := List.getElem?_eq_some.1 hsome
    exact hval

/-- C18, the code at the failing input. For the path `cube.obj`, which has no `/`,
`find_last_of` gives `npos` and `substr(0, npos)` is the whole path: `load` sets `directory`
to `cube.obj`, the asset's own file name, and a texture `brick.png` is looked for at
`cube.obj/brick.png`. The same holds for every path without `/`, while for a path with a `/`
the directory is the part before the last `/`, as the claim says. -/
theorem load_directory_without_slash :
    (load (cube_ext ℚ Rat.sqrt) "cube.obj" (Model.init 1 ⟨0, 0, 0⟩ 1) []).toOption.map
        (fun r => r.1.directory) = some "cube.obj" ∧
    (∀ p : String, '/' ∉ p.data → p.data.length ≤ npos →
      substr0 p (find_last_of p '/') = p) ∧
    (∀ p : String, '/' ∈ p.data →
      p.data = (substr0 p (find_last_of p '/')).data
        ++ '/' :: p.data.drop (find_last_of p '/' + 1) ∧
      '/' ∉ p.data.drop (find_last_of p '/' + 1)) := by
  refine ⟨rfl, ?_, ?_⟩
  · intro p hp hlen
    rw [find_last_of_absent p '/' hp]
    unfold substr0
    rw [List.take_of_length_le hlen]
  · intro p hp
    obtain ⟨-, h2, h3⟩ := find_last_of_present p '/' hp
    exact ⟨h2, h3⟩

end Directory

section Registry

variable {F : Type} [LinearOrderedField F]

/-- A completed construction appends `this` to the registry chosen by `flat` and leaves the
other registry alone. -/
theorem construct_registry (ext : Extern F) (g g1 : Globals) (this : ModelPtr) (path : String)
    (rot : Mat4 F) (w : Vec3 F) (s : F) (flat : Bool) (self : Model F)
    (h : Model.construct ext g this path rot w s flat = .ok (self, g1)) :
    g1.loaded_models = g.loaded_models ++ (if flat then [] else [this]) ∧
    g1.loaded_flat_models = g.loaded_flat_models ++ (if flat then [this] else []) := by
  unfold Model.construct at h
  split at h
  · cases h
  · split at h
    · cases h
    · cases flat <;> simp at h <;> obtain ⟨-, rfl⟩ := h <;> simp

/-- The registries after a completed sequence of constructions, from any start. -/
theorem construct_all_registry (ext : Extern F) (reqs : List (CtorArgs F)) :
    ∀ (g0 g : Globals), construct_all ext g0 reqs = .ok g →
      g.loaded_models =
        g0.loaded_models ++ (reqs.filter (fun a => !a.flat)).map (fun a => a.this) ∧
      g.loaded_flat_models =
        g0.loaded_flat_models ++ (reqs.filter (fun a => a.flat)).map (fun a => a.this) := by
  induction reqs with
  | nil =>
    intro g0 g h
    simp [construct_all] at h
    subst h
    simp
  | cons a rest ih =>
    intro g0 g h
    simp only [construct_all] at h
    split at h
    · cases h
    · rename_i self g1 hc
      obtain ⟨h1, h2⟩ := construct_registry ext g0 g1 _ _ _ _ _ _ self hc
      obtain ⟨h3, h4⟩ := ih g1 g h
      rw [h3, h4, h1, h2]
      cases hf : a.flat <;> simp [List.filter, hf]

/-- One step of `construct_all`, for evaluating a sequence construction by construction. -/
theorem construct_all_cons (ext : Extern F) (g g1 g2 : Globals) (a : CtorArgs F)
    (rest : List (CtorArgs F)) (self : Model F)
    (h1 : Model.construct ext g a.this a.path a.rot_matrix a.world_coord a.scale a.flat
      = .ok (self, g1))
    (h2 : construct_all ext g1 rest = .ok g2) :
    construct_all ext g (a :: rest) = .ok g2 := by
  simp only [construct_all, h1, h2]

/-- C1. Starting from empty registries, after any sequence of `Model` constructions that all
run to completion, `get_loaded_models()` is the list of the addresses constructed with
`flat = false` and `get_loaded_flat_models()` the list of those constructed with
`flat = true`, each in construction order with one entry per construction; as the
constructed objects are distinct, no address is repeated in a list and none is in both. -/
theorem registry_partition (ext : Extern F) (g0 g : Globals) (reqs : List (CtorArgs F))
    (hm : g0.loaded_models = []) (hf : g0.loaded_flat_models = [])
    (hdistinct : (reqs.map (fun a => a.this)).Nodup)
    (hrun : construct_all ext g0 reqs = .ok g) :
    Model.get_loaded_models g = (reqs.filter (fun a => !a.flat)).map (fun a => a.this) ∧
    Model.get_loaded_flat_models g = (reqs.filter (fun a => a.flat)).map (fun a => a.this) ∧
    (Model.get_loaded_models g).Nodup ∧
    (Model.get_loaded_flat_models g).Nodup ∧
    ∀ p, p ∈ Model.get_loaded_models g → p ∉ Model.get_loaded_flat_models g := by
  obtain ⟨h1, h2⟩ := construct_all_registry ext reqs g0 g hrun
  rw [hm, List.nil_append] at h1
  rw [hf, List.nil_append] at h2
  simp only [Model.get_loaded_models, Model.get_loaded_flat_models]
  rw [h1, h2]
  refine ⟨rfl, rfl, ?_, ?_, ?_⟩
  · exact hdistinct.sublist ((List.filter_sublist reqs).map _)
  · exact hdistinct.sublist ((List.filter_sublist reqs).map _)
  · intro p hp hq
    obtain ⟨a, ha, rfl⟩ := List.mem_map.1 hp
    obtain ⟨b, hb, hab⟩ := List.mem_map.1 hq
    rw [List.mem_filter] at ha hb
    have hinj := List.inj_on_of_nodup_map hdistinct hb.1 ha.1 hab
    subst hinj
    have h3 := ha.2
    have h4 := hb.2
    simp only [h4] at h3
    exact absurd h3 (by decide)

set_option maxRecDepth 100000 in
/-- Witness for C1: model A (`flat = false`) then model B (`flat = true`). -/
theorem registry_partition_witness :
    ∃ g, construct_all demo_ext ⟨[], [], []⟩ demo_reqs = .ok g ∧
      Model.get_loaded_models g = [7] ∧ Model.get_loaded_flat_models g = [9] := by
  have hrun : construct_all demo_ext ⟨[], [], []⟩ demo_reqs
      = .ok ⟨[7], [9], [⟨TextureType.DIFFUSE, "brick.png"⟩]⟩ :=
    construct_all_cons demo_ext ⟨[], [], []⟩ ⟨[7], [], [⟨TextureType.DIFFUSE, "brick.png"⟩]⟩ _ _ _ _
      rfl
      (construct_all_cons demo_ext _ ⟨[7], [9], [⟨TextureType.DIFFUSE, "brick.png"⟩]⟩ _ _ _ _
        rfl rfl)
  have h := registry_partition demo_ext ⟨[], [], []⟩ _ demo_reqs rfl rfl (by decide) hrun
  exact ⟨_, hrun, h.1, h.2.1⟩

end Registry

end Emerald
